import Mathlib

/-!
# roam-backend — verification of the data-integration engine

A shallow embedding, in Lean 4, of the parts of the `roam-backend`
repository that its specification makes checkable claims about:

* content-address keying (`app/core/keying.py`, the overlay key helper in
  `app/services/hazards.py` / `app/services/traffic.py`, and the
  corridor-places key helper in `app/services/places.py`);
* the polyline6 codec (`app/core/polyline6.py`);
* corridor extraction (`app/services/corridor.py`);
* grade segmentation (`app/services/elevation.py`);
* CAP-AU composite priority and the overlay poll pipeline
  (`app/services/hazards.py`, `app/services/traffic.py`);
* the POI engine's corridor search and bbox search
  (`app/services/places.py`).

Modelling conventions: Python byte strings are `List Nat` (byte values);
Python text strings are `List Nat` of their UTF-8 bytes; Python numbers
are `Int`/`Rat` (the source runs on IEEE doubles; all claims here concern
values and tolerances at which double rounding is not the issue under
test, and the spec's own tolerance statements are about exact decimal
arithmetic); `time.time()` and other environment inputs are explicit
parameters; SQLite tables are explicit lists / association lists.
Loops whose iteration count is data-dependent are given an explicit fuel
argument that is a proven-sufficient bound, so every definition reduces
in the kernel.
-/

namespace Roam

set_option maxRecDepth 40000

/-- UTF-8/ASCII bytes of a Lean string literal (all strings that the keyed
payloads in this service contain are plain ASCII). -/
def asciiBytes (s : String) : List Nat := s.toList.map Char.toNat

/-! ## 32-bit words as `Nat` -/

/-- Truncation to a 32-bit machine word. -/
def w32 (n : Nat) : Nat := n % 4294967296

/-- 32-bit right rotation. -/
def rotr32 (x k : Nat) : Nat := w32 ((x >>> k) ||| (x <<< (32 - k)))

def xor3 (a b c : Nat) : Nat := (a ^^^ b) ^^^ c

/-! ## SHA-256 (FIPS 180-4), as `hashlib.sha256` computes it

`keying.sha256_b32`, `hazards._stable_key`, `traffic._stable_key` and
`places._corridor_places_key` all hash with SHA-256; the digest is embedded
here bit-for-bit so that concrete keys can be computed inside proofs. -/

def bsig0 (x : Nat) : Nat := xor3 (rotr32 x 2) (rotr32 x 13) (rotr32 x 22)
def bsig1 (x : Nat) : Nat := xor3 (rotr32 x 6) (rotr32 x 11) (rotr32 x 25)
def ssig0 (x : Nat) : Nat := xor3 (rotr32 x 7) (rotr32 x 18) (x >>> 3)
def ssig1 (x : Nat) : Nat := xor3 (rotr32 x 17) (rotr32 x 19) (x >>> 10)

def chf (x y z : Nat) : Nat := (x &&& y) ^^^ ((x ^^^ 4294967295) &&& z)
def majf (x y z : Nat) : Nat := xor3 (x &&& y) (x &&& z) (y &&& z)

def shaK : List Nat :=
  [1116352408, 1899447441, 3049323471, 3921009573, 961987163, 1508970993,
   2453635748, 2870763221, 3624381080, 310598401, 607225278, 1426881987,
   1925078388, 2162078206, 2614888103, 3248222580, 3835390401, 4022224774,
   264347078, 604807628, 770255983, 1249150122, 1555081692, 1996064986,
   2554220882, 2821834349, 2952996808, 3210313671, 3336571891, 3584528711,
   113926993, 338241895, 666307205, 773529912, 1294757372, 1396182291,
   1695183700, 1986661051, 2177026350, 2456956037, 2730485921, 2820302411,
   3259730800, 3345764771, 3516065817, 3600352804, 4094571909, 275423344,
   430227734, 506948616, 659060556, 883997877, 958139571, 1322822218,
   1537002063, 1747873779, 1955562222, 2024104815, 2227730452, 2361852424,
   2428436474, 2756734187, 3204031479, 3329325298]

def shaH0 : List Nat :=
  [1779033703, 3144134277, 1013904242, 2773480762,
   1359893119, 2600822924, 528734635, 1541459225]

/-- Big-endian bytes → 32-bit word. -/
def word32OfBytes (a b c d : Nat) : Nat := ((a * 256 + b) * 256 + c) * 256 + d

/-- Split bytes into 32-bit big-endian words (length is a multiple of 4 after padding). -/
def wordsOfBytes : List Nat → List Nat
  | a :: b :: c :: d :: rest => word32OfBytes a b c d :: wordsOfBytes rest
  | _ => []

/-- SHA-256 message padding: `0x80`, zeros to 56 mod 64, 8-byte big-endian bit length. -/
def shaPad (msg : List Nat) : List Nat :=
  let l := msg.length
  let k := (55 + 64 - l % 64) % 64
  let bitLen := 8 * l
  msg ++ [0x80] ++ List.replicate k 0 ++
    [(bitLen >>> 56) % 256, (bitLen >>> 48) % 256, (bitLen >>> 40) % 256,
     (bitLen >>> 32) % 256, (bitLen >>> 24) % 256, (bitLen >>> 16) % 256,
     (bitLen >>> 8) % 256, bitLen % 256]

/-- Message-schedule extension: append `n` more words to the 16 block words. -/
def shaExtend (w : List Nat) : Nat → List Nat
  | 0 => w
  | n + 1 =>
    let wp := shaExtend w n
    let i := wp.length
    wp ++ [w32 (ssig1 (wp.getD (i - 2) 0) + wp.getD (i - 7) 0 +
                ssig0 (wp.getD (i - 15) 0) + wp.getD (i - 16) 0)]

/-- One round of the compression function; the state is the 8 working words. -/
def shaRound (st : List Nat) (k w : Nat) : List Nat :=
  match st with
  | [a, b, c, d, e, f, g, h] =>
    let t1 := w32 (h + bsig1 e + chf e f g + k + w)
    let t2 := w32 (bsig0 a + majf a b c)
    [w32 (t1 + t2), a, b, c, w32 (d + t1), e, f, g]
  | other => other

/-- Compress one 512-bit block (given as 16 words) into the hash state. -/
def shaCompress (h : List Nat) (block : List Nat) : List Nat :=
  let w := shaExtend block 48
  let st := (List.zip shaK w).foldl (fun s kw => shaRound s kw.1 kw.2) h
  (List.zip h st).map (fun p => w32 (p.1 + p.2))

/-- Fold the compression over the 64-byte blocks; `fuel` bounds the block count
(one unit per block) so the recursion is structural and kernel-reducible. -/
def shaBlocksGo : Nat → List Nat → List Nat → List Nat
  | 0, h, _ => h
  | _, h, [] => h
  | n + 1, h, bytes => shaBlocksGo n (shaCompress h (wordsOfBytes (bytes.take 64))) (bytes.drop 64)

/-- Big-endian bytes of a 32-bit word. -/
def word32Bytes (x : Nat) : List Nat :=
  [(x >>> 24) % 256, (x >>> 16) % 256, (x >>> 8) % 256, x % 256]

/-- SHA-256 of a byte list, as its 32 digest bytes. -/
def sha256 (msg : List Nat) : List Nat :=
  let p := shaPad msg
  (shaBlocksGo (p.length / 64) shaH0 p).flatMap word32Bytes

/-! ## hex and base64url encodings of digests -/

/-- Lower-case hex digit, as `hashlib`'s `hexdigest` uses. -/
def hexDigit (n : Nat) : Nat := if n < 10 then 48 + n else 87 + n

/-- `hexdigest()`: lower-case hex bytes of a digest. -/
def hexOfBytes (bs : List Nat) : List Nat :=
  bs.flatMap (fun b => [hexDigit (b / 16), hexDigit (b % 16)])

/-- The URL-safe base64 alphabet of `base64.urlsafe_b64encode`. -/
def b64Char (n : Nat) : Nat :=
  if n < 26 then 65 + n
  else if n < 52 then 97 + (n - 26)
  else if n < 62 then 48 + (n - 52)
  else if n = 62 then 45
  else 95

/-- `base64.urlsafe_b64encode` over bytes, `=`-padded. -/
def b64urlEncode : List Nat → List Nat
  | a :: b :: c :: rest =>
    let n := (a * 256 + b) * 256 + c
    b64Char (n / 262144) :: b64Char (n / 4096 % 64) :: b64Char (n / 64 % 64) ::
      b64Char (n % 64) :: b64urlEncode rest
  | [a, b] =>
    let n := (a * 256 + b) * 4
    [b64Char (n / 4096), b64Char (n / 64 % 64), b64Char (n % 64), 61]
  | [a] =>
    let n := a * 16
    [b64Char (n / 64), b64Char (n % 64), 61, 61]
  | [] => []

/-- `.rstrip("=")` on an encoded byte list. -/
def rstripEq (l : List Nat) : List Nat :=
  (l.reverse.dropWhile (fun c => c = 61)).reverse

/-! ## Decimal numbers

The keyed payloads carry Python floats whose `repr`/`json` form is a short
decimal (`0.0`, `15.0`, `150.25`, …).  They are modelled as exact decimals
`mant · 10^(-exp)`, printed with exactly `exp` fractional digits, which is
`repr` of such a float. -/

structure DecNum where
  mant : Int
  exp : Nat
  deriving DecidableEq, Repr

/-- Exact rational value of a decimal. -/
def DecNum.val (x : DecNum) : Rat := Rat.divInt x.mant ((10 : Int) ^ x.exp)

/-- Decimal digits of a natural number, most significant first. -/
def natDigits (n : Nat) : List Nat := (Nat.toDigits 10 n).map Char.toNat

/-- Python `repr` of an integer. -/
def intRepr (n : Int) : List Nat :=
  if n < 0 then 45 :: natDigits n.natAbs else natDigits n.natAbs

/-- Python `repr`/`json` text of a simple-decimal float: integer part, `.`,
and exactly `exp` fractional digits (`DecNum.mk 0 1` prints `0.0`). -/
def DecNum.repr (x : DecNum) : List Nat :=
  let a := x.mant.natAbs
  let p := (10 : Nat) ^ x.exp
  let frac := natDigits (a % p)
  (if x.mant < 0 then [45] else []) ++ natDigits (a / p) ++
    (if x.exp = 0 then [] else [46] ++ List.replicate (x.exp - frac.length) 48 ++ frac)

/-! ## Canonical JSON

`keying._orjson_dumps` serialises with `OPT_SORT_KEYS | OPT_NON_STR_KEYS`
(sorted keys, no spaces); `hazards._stable_key` / `traffic._stable_key` use
`json.dumps(obj, sort_keys=True, separators=(",", ":"))`.  On the ASCII
payloads these services key by, both produce the same canonical bytes,
modelled once here.  (Non-string Python keys are stringified before
sorting; the payload objects in this service all use string keys.) -/

inductive Json where
  | null
  | bool (b : Bool)
  | int (n : Int)
  | dec (x : DecNum)
  | str (s : List Nat)
  | arr (xs : List Json)
  | obj (kvs : List (List Nat × Json))

/-- JSON string escaping (quote, backslash, control characters; the payload
strings are ASCII, where `json.dumps` and `orjson` agree). -/
def jsonEscape (s : List Nat) : List Nat :=
  s.flatMap fun b =>
    if b = 34 then [92, 34]
    else if b = 92 then [92, 92]
    else if b < 32 then [92, 117, 48, 48, hexDigit (b / 16), hexDigit (b % 16)]
    else [b]

/-- A serialised JSON string, quotes included. -/
def jsonStrBytes (s : List Nat) : List Nat := 34 :: (jsonEscape s ++ [34])

/-- Lexicographic order on byte strings (Python `sorted` on `str`, restricted
to the ASCII keys these payloads use). -/
def bytesLe : List Nat → List Nat → Bool
  | [], _ => true
  | _ :: _, [] => false
  | a :: as, b :: bs => if a < b then true else if b < a then false else bytesLe as bs

/-- Insert into a key-sorted association list (used to sort object keys). -/
def insertKV (kv : List Nat × Json) : List (List Nat × Json) → List (List Nat × Json)
  | [] => [kv]
  | hd :: tl => if bytesLe kv.1 hd.1 then kv :: hd :: tl else hd :: insertKV kv tl

/-- Sort object entries by key (insertion sort; Python dict keys are unique). -/
def sortKVs (l : List (List Nat × Json)) : List (List Nat × Json) :=
  l.foldr insertKV []

/-- Join serialised members with `,`. -/
def joinComma (l : List (List Nat)) : List Nat :=
  match l with
  | [] => []
  | x :: xs => x ++ xs.flatMap (fun y => 44 :: y)

/-- Canonical JSON serialiser body; `fuel` bounds the nesting depth so the
recursion is structural (every call below supplies a sufficient bound). -/
def canonJsonGo : Nat → Json → List Nat
  | 0, _ => []
  | fuel + 1, v =>
    match v with
    | .null => asciiBytes "null"
    | .bool true => asciiBytes "true"
    | .bool false => asciiBytes "false"
    | .int n => intRepr n
    | .dec x => x.repr
    | .str s => jsonStrBytes s
    | .arr xs => 91 :: (joinComma (xs.map (canonJsonGo fuel)) ++ [93])
    | .obj kvs =>
      123 :: (joinComma ((sortKVs kvs).map fun kv =>
        jsonStrBytes kv.1 ++ (58 :: canonJsonGo fuel kv.2)) ++ [125])

/-- `canonical_json(v)`: sorted keys, compact separators, UTF-8 bytes.  The
fuel argument bounds the nesting depth; every payload this service keys by
is schema-bounded far below 64 levels. -/
def canonicalJson (v : Json) : List Nat := canonJsonGo 64 v

/-! ## Content-address keys (`app/core/keying.py` and the per-service key helpers) -/

/-- `keying.sha256_b32`: unpadded URL-safe base64 of the SHA-256 digest. -/
def sha256_b32 (data : List Nat) : List Nat := rstripEq (b64urlEncode (sha256 data))

/-- The `{algo_version, route_key, buffer_m, max_edges, profile}` payload of
`keying.corridor_key`. -/
def corridorKeyPayload (routeKey : List Nat) (bufferM maxEdges : Int)
    (profile algoVersion : List Nat) : Json :=
  Json.obj [
    (asciiBytes "algo_version", .str algoVersion),
    (asciiBytes "route_key", .str routeKey),
    (asciiBytes "buffer_m", .int bufferM),
    (asciiBytes "max_edges", .int maxEdges),
    (asciiBytes "profile", .str profile)]

/-- `keying.corridor_key`. -/
def corridor_key (routeKey : List Nat) (bufferM maxEdges : Int)
    (profile algoVersion : List Nat) : List Nat :=
  sha256_b32 (canonicalJson (corridorKeyPayload routeKey bufferM maxEdges profile algoVersion))

/-- The `{algo_version, req}` payload of `keying.places_key`. -/
def placesKeyPayload (req : Json) (algoVersion : List Nat) : Json :=
  Json.obj [
    (asciiBytes "algo_version", .str algoVersion),
    (asciiBytes "req", req)]

/-- `keying.places_key`. -/
def places_key (req : Json) (algoVersion : List Nat) : List Nat :=
  sha256_b32 (canonicalJson (placesKeyPayload req algoVersion))

/-- `hazards._stable_key` / `traffic._stable_key`: SHA-256 of
`prefix + "::" + json.dumps(obj, sort_keys=True, separators=(",", ":"))`,
URL-safe base64, `=`-stripped. -/
def stableKey (tag : List Nat) (obj : Json) : List Nat :=
  rstripEq (b64urlEncode (sha256 (tag ++ asciiBytes "::" ++ canonicalJson obj)))

/-- Sort a list of byte strings lexicographically (Python `sorted`). -/
def sortBytesList (l : List (List Nat)) : List (List Nat) :=
  l.foldr (fun x acc =>
    let rec ins (x : List Nat) : List (List Nat) → List (List Nat)
      | [] => [x]
      | hd :: tl => if bytesLe x hd then x :: hd :: tl else hd :: ins x tl
    ins x acc) []

/-- `places._corridor_places_key`: hex SHA-256 of the
`CorridorPlaces/v1|poly_sha=…|buf=…|cats=…|lim=…|algo=…` string, where the
polyline is first hashed to hex and the categories are sorted. -/
def corridorPlacesRaw (polyline : List Nat) (bufferKm : DecNum)
    (categories : List (List Nat)) (limit : Int) (algoVersion : List Nat) : List Nat :=
  let catsStr := joinComma (sortBytesList categories)
  asciiBytes "CorridorPlaces/v1|poly_sha=" ++ hexOfBytes (sha256 polyline) ++
  asciiBytes "|buf=" ++ bufferKm.repr ++
  asciiBytes "|cats=" ++ catsStr ++
  asciiBytes "|lim=" ++ intRepr limit ++
  asciiBytes "|algo=" ++ algoVersion

def corridorPlacesKey (polyline : List Nat) (bufferKm : DecNum)
    (categories : List (List Nat)) (limit : Int) (algoVersion : List Nat) : List Nat :=
  hexOfBytes (sha256 (corridorPlacesRaw polyline bufferKm categories limit algoVersion))

/-- The key formula as the specification states it for every cacheable
artifact: `base64url(sha256(canonical_json(payload)))`, padding stripped.
Modelled from the spec's words for comparison with the key helpers above. -/
def specContentKey (payload : Json) : List Nat :=
  rstripEq (b64urlEncode (sha256 (canonicalJson payload)))

/-! ## Executable rational arithmetic

The library's `Rat.add`/`Rat.mul`/… are `@[irreducible]`, which blocks kernel
evaluation of concrete runs.  The embedding therefore computes through the
wrappers below, built on `Rat.divInt` (which does reduce); each is proved
equal to the corresponding field operation, so proofs may freely rewrite
between the two. -/

/-- Executable `a * b` on `ℚ`. -/
def rmul (a b : Rat) : Rat := Rat.divInt (a.num * b.num) ((a.den : Int) * b.den)

/-- Executable `a + b` on `ℚ`. -/
def radd (a b : Rat) : Rat :=
  Rat.divInt (a.num * b.den + b.num * a.den) ((a.den : Int) * b.den)

/-- Executable `a - b` on `ℚ`. -/
def rsub (a b : Rat) : Rat := radd a (Rat.divInt (-b.num) b.den)

/-- Executable `a / b` on `ℚ`. -/
def rdiv (a b : Rat) : Rat := Rat.divInt (a.num * b.den) ((a.den : Int) * b.num)

/-- Executable `⌊x⌋` on `ℚ`. -/
def rfloorI (x : Rat) : Int := x.num / (x.den : Int)

theorem rmul_eq (a b : Rat) : rmul a b = a * b := by
  conv_rhs => rw [← Rat.num_divInt_den a, ← Rat.num_divInt_den b]
  rw [Rat.divInt_mul_divInt', rmul]

theorem radd_eq (a b : Rat) : radd a b = a + b := by
  conv_rhs => rw [← Rat.num_divInt_den a, ← Rat.num_divInt_den b]
  rw [Rat.divInt_add_divInt _ _ (Int.natCast_ne_zero.mpr a.den_nz)
    (Int.natCast_ne_zero.mpr b.den_nz), radd]

theorem rsub_eq (a b : Rat) : rsub a b = a - b := by
  rw [rsub, radd_eq, sub_eq_add_neg]
  congr 1
  rw [← Rat.neg_divInt, Rat.num_divInt_den]

theorem rdiv_eq (a b : Rat) : rdiv a b = a / b := by
  conv_rhs => rw [← Rat.num_divInt_den a, ← Rat.num_divInt_den b]
  rw [Rat.divInt_div_divInt, rdiv]

theorem rfloorI_eq (x : Rat) : rfloorI x = ⌊x⌋ := Rat.floor_def.symm

/-! ## Python rounding

`round()` on a float rounds half to even.  The codec and the priority
computation round through this function. -/

/-- Python `round(x)`: nearest integer, ties to even. -/
def pyRound (x : Rat) : Int :=
  let f := rfloorI x
  let r := rsub x (Rat.divInt f 1)
  if r < Rat.divInt 1 2 then f
  else if Rat.divInt 1 2 < r then f + 1
  else if f % 2 = 0 then f else f + 1

/-! ## Polyline6 codec (`app/core/polyline6.py`)

Characters are carried as their code points (`ord`/`chr`).  Coordinates are
exact rationals; `_encode_value`'s input is the signed delta of the scaled
integer coordinates. -/

/-- The zigzag step of `_encode_value`: `v = ~(v << 1) if v < 0 else (v << 1)`. -/
def zigzag (v : Int) : Nat := if v < 0 then (-(v * 2) - 1).toNat else (v * 2).toNat

/-- The chunk loop of `_encode_value`: 5-bit groups, low first, continuation
bit `0x20`, offset 63.  `fuel` bounds the iteration count (the value shrinks
by a factor 32 each step, so any `fuel ≥ n` is sufficient). -/
def encodeChunksGo : Nat → Nat → List Nat
  | 0, n => [n + 63]
  | fuel + 1, n =>
    if n < 32 then [n + 63]
    else (32 + n % 32 + 63) :: encodeChunksGo fuel (n / 32)

/-- `_encode_value(v)` as character codes. -/
def encodeValue (v : Int) : List Nat :=
  encodeChunksGo (zigzag v) (zigzag v)

/-- `encode_polyline6` main loop, carrying the previous scaled point. -/
def encodePolyGo : Int → Int → List (Rat × Rat) → List Nat
  | _, _, [] => []
  | lastLat, lastLng, (lat, lng) :: rest =>
    let ilat := pyRound (rmul lat 1000000)
    let ilng := pyRound (rmul lng 1000000)
    encodeValue (ilat - lastLat) ++ encodeValue (ilng - lastLng) ++ encodePolyGo ilat ilng rest

/-- `encode_polyline6(coords)` over `(lat, lng)` pairs. -/
def encode_polyline6 (coords : List (Rat × Rat)) : List Nat :=
  encodePolyGo 0 0 coords

/-- `_decode_value`'s accumulation loop; consuming the list head is the
source's index walk, and `none` is the `IndexError` a truncated string
raises. -/
def decodeValueGo : List Nat → Nat → Nat → Option (Nat × List Nat)
  | [], _, _ => none
  | c :: rest, result, shift =>
    let b := c - 63
    let result2 := result ||| ((b &&& 31) <<< shift)
    if b < 32 then some (result2, rest) else decodeValueGo rest result2 (shift + 5)

/-- The un-zigzag step of `_decode_value`:
`d = ~(result >> 1) if (result & 1) else (result >> 1)`. -/
def unzigzag (r : Nat) : Int :=
  if r % 2 = 1 then -((r : Int) / 2) - 1 else (r : Int) / 2

/-- `_decode_value(s, idx)`: one signed value plus the remaining characters. -/
def decodeValue (s : List Nat) : Option (Int × List Nat) :=
  (decodeValueGo s 0 0).map fun p => (unzigzag p.1, p.2)

/-- `decode_polyline6` main loop; `fuel` bounds the iteration count (each
iteration consumes at least two characters, so `fuel ≥ length` suffices). -/
def decodePolyGo : Nat → List Nat → Int → Int → Option (List (Rat × Rat))
  | 0, s, _, _ => if s.isEmpty then some [] else none
  | fuel + 1, s, lat, lng =>
    if s.isEmpty then some []
    else
      match decodeValue s with
      | none => none
      | some (dlat, s1) =>
        match decodeValue s1 with
        | none => none
        | some (dlng, s2) =>
          let lat2 := lat + dlat
          let lng2 := lng + dlng
          (decodePolyGo fuel s2 lat2 lng2).map
            (fun tl => (Rat.divInt lat2 1000000, Rat.divInt lng2 1000000) :: tl)

/-- `decode_polyline6(poly)`: `none` models the exception a malformed string
raises. -/
def decode_polyline6 (poly : List Nat) : Option (List (Rat × Rat)) :=
  decodePolyGo poly.length poly 0 0

/-- The scaled-and-rescaled value a coordinate round-trips to. -/
def q6 (x : Rat) : Rat := Rat.divInt (pyRound (rmul x 1000000)) 1000000

/-- Pointwise round-trip image of a coordinate pair. -/
def roundPt (p : Rat × Rat) : Rat × Rat := (q6 p.1, q6 p.2)

/-! ### Round-trip lemmas for the codec -/

/-- The two 5-bit chunks of one encoder step reassemble to the full value. -/
theorem chunk_lor (n s : Nat) : ((n % 32) <<< s) ||| ((n / 32) <<< (s + 5)) = n <<< s := by
  apply Nat.eq_of_testBit_eq
  intro i
  have h32 : (32 : Nat) = 2 ^ 5 := rfl
  have hdiv : n / 32 = n >>> 5 := by rw [Nat.shiftRight_eq_div_pow]
  rw [hdiv]
  simp only [Nat.testBit_lor, Nat.testBit_shiftLeft, h32, Nat.testBit_mod_two_pow,
    Nat.testBit_shiftRight]
  rcases Nat.lt_or_ge i s with h | h
  · simp [Nat.not_le.mpr h, show ¬ (s + 5 ≤ i) by omega]
  · rcases Nat.lt_or_ge i (s + 5) with h2 | h2
    · simp [h, Nat.not_le.mpr h2, show i - s < 5 by omega]
    · simp [h, h2, show ¬ (i - s < 5) by omega, show 5 + (i - (s + 5)) = i - s by omega]

/-- The decoder's accumulation loop inverts the encoder's chunk loop, for any
sufficient fuel and any incoming accumulator. -/
theorem decodeValueGo_encodeChunks :
    ∀ (fuel n : Nat), n ≤ fuel → ∀ (rest : List Nat) (result shift : Nat),
    decodeValueGo (encodeChunksGo fuel n ++ rest) result shift =
      some (result ||| (n <<< shift), rest) := by
  intro fuel
  induction fuel with
  | zero =>
    intro n hn rest result shift
    have h0 : n = 0 := Nat.le_zero.mp hn
    subst h0
    simp [encodeChunksGo, decodeValueGo]
  | succ fuel ih =>
    intro n hn rest result shift
    by_cases h : n < 32
    · have hb : (n + 63) - 63 = n := by omega
      have hm : n &&& 31 = n := by
        have : (31 : Nat) = 2 ^ 5 - 1 := rfl
        rw [this, Nat.and_pow_two_sub_one_eq_mod, Nat.mod_eq_of_lt (by omega)]
      simp [encodeChunksGo, h, decodeValueGo, hb, hm]
    · have hb : (32 + n % 32 + 63) - 63 = 32 + n % 32 := by omega
      have hm : (32 + n % 32) &&& 31 = n % 32 := by
        have : (31 : Nat) = 2 ^ 5 - 1 := rfl
        rw [this, Nat.and_pow_two_sub_one_eq_mod]
        show (32 + n % 32) % 32 = n % 32
        omega
      have hlt : ¬ (32 + n % 32 < 32) := by omega
      simp only [encodeChunksGo, if_neg h, List.cons_append, decodeValueGo, hb, hm, if_neg hlt]
      rw [ih (n / 32) (by omega) rest _ (shift + 5), Nat.lor_assoc, chunk_lor]

/-- Un-zigzag inverts zigzag. -/
theorem unzigzag_zigzag (v : Int) : unzigzag (zigzag v) = v := by
  simp only [zigzag, unzigzag]
  split_ifs <;> omega

/-- `_decode_value` inverts `_encode_value` at the head of any stream. -/
theorem decodeValue_encodeValue (v : Int) (rest : List Nat) :
    decodeValue (encodeValue v ++ rest) = some (v, rest) := by
  unfold decodeValue encodeValue
  rw [decodeValueGo_encodeChunks (zigzag v) (zigzag v) le_rfl]
  simp [unzigzag_zigzag]

/-- The encoder always emits at least one character per value. -/
theorem encodeValue_ne_nil (v : Int) : encodeValue v ≠ [] := by
  unfold encodeValue
  cases h : zigzag v
  · simp [encodeChunksGo]
  · simp only [encodeChunksGo]
    split <;> simp

/-- Each coordinate contributes at least two characters. -/
theorem le_length_encodePolyGo :
    ∀ (coords : List (Rat × Rat)) (llat llng : Int),
    coords.length ≤ (encodePolyGo llat llng coords).length := by
  intro coords
  induction coords with
  | nil => intro llat llng; simp [encodePolyGo]
  | cons p rest ih =>
    intro llat llng
    obtain ⟨lat, lng⟩ := p
    have h1 := encodeValue_ne_nil (pyRound (rmul lat 1000000) - llat)
    have h2 := List.length_pos.mpr h1
    simp only [encodePolyGo, List.length_cons, List.length_append]
    have h3 := ih (pyRound (rmul lat 1000000)) (pyRound (rmul lng 1000000))
    omega

/-- The decoder loop inverts the encoder loop from any starting point, for
any sufficient fuel. -/
theorem decodePolyGo_encodePolyGo :
    ∀ (coords : List (Rat × Rat)) (fuel : Nat), coords.length ≤ fuel →
    ∀ (llat llng : Int),
    decodePolyGo fuel (encodePolyGo llat llng coords) llat llng =
      some (coords.map roundPt) := by
  intro coords
  induction coords with
  | nil =>
    intro fuel _ llat llng
    cases fuel <;> simp [encodePolyGo, decodePolyGo]
  | cons p rest ih =>
    intro fuel hf llat llng
    cases fuel with
    | zero => simp at hf
    | succ fuel => ?_
    obtain ⟨lat, lng⟩ := p
    have hne : encodeValue (pyRound (rmul lat 1000000) - llat) ++
        (encodeValue (pyRound (rmul lng 1000000) - llng) ++
          encodePolyGo (pyRound (rmul lat 1000000)) (pyRound (rmul lng 1000000)) rest) ≠ [] := by
      simp [encodeValue_ne_nil]
    simp only [encodePolyGo, decodePolyGo, List.append_assoc]
    rw [if_neg (by simpa [List.isEmpty_iff] using hne)]
    simp only [decodeValue_encodeValue]
    have hlat : llat + (pyRound (rmul lat 1000000) - llat) = pyRound (rmul lat 1000000) := by omega
    have hlng : llng + (pyRound (rmul lng 1000000) - llng) = pyRound (rmul lng 1000000) := by omega
    simp only [hlat, hlng]
    rw [ih fuel (by simpa using hf)]
    simp [roundPt, q6]

/-- Decoding an encoded polyline recovers every coordinate rounded to the
1e-6 grid. -/
theorem decode_encode_polyline6 (coords : List (Rat × Rat)) :
    decode_polyline6 (encode_polyline6 coords) = some (coords.map roundPt) := by
  unfold decode_polyline6 encode_polyline6
  exact decodePolyGo_encodePolyGo coords _ (le_length_encodePolyGo coords 0 0) 0 0

/-- `pyRound` at an exact integer returns it. -/
theorem pyRound_intCast (k : Int) : pyRound ((k : Rat)) = k := by
  simp only [pyRound, rfloorI_eq, rsub_eq, Rat.divInt_eq_div, Int.cast_one, div_one,
    Int.floor_intCast]
  norm_num

/-- `pyRound` is within a half of its argument. -/
theorem pyRound_abs (x : Rat) : |x - (pyRound x : Rat)| ≤ 1 / 2 := by
  simp only [pyRound, rfloorI_eq, rsub_eq, Rat.divInt_eq_div, Int.cast_one, div_one]
  have h1 : (⌊x⌋ : Rat) ≤ x := Int.floor_le x
  have h2 : x < ⌊x⌋ + 1 := Int.lt_floor_add_one x
  split_ifs with ha hb hc <;>
    rw [abs_le] <;>
    constructor <;>
    push_cast at * <;>
    linarith

/-- A coordinate that is an exact multiple of 1e-6 round-trips exactly. -/
theorem q6_grid (k : Int) : q6 (Rat.divInt k 1000000) = Rat.divInt k 1000000 := by
  unfold q6
  have h : rmul (Rat.divInt k 1000000) 1000000 = (k : Rat) := by
    rw [rmul_eq, Rat.divInt_eq_div]
    field_simp
  rw [h, pyRound_intCast]

/-- Round-tripping moves a coordinate by at most half a micro-degree. -/
theorem q6_abs (x : Rat) : |x - q6 x| ≤ 1 / 2000000 := by
  unfold q6
  rw [rmul_eq, Rat.divInt_eq_div]
  have h := pyRound_abs (rmul x 1000000)
  rw [rmul_eq] at h
  rw [abs_le] at h ⊢
  obtain ⟨hl, hr⟩ := h
  constructor <;> push_cast at * <;> linarith

/-! ## CAP-AU composite priority (`app/services/hazards.py`)

Dimension strings are UTF-8 byte lists; `(x or "").strip().lower()` is
modelled over ASCII. -/

/-- ASCII `str.lower()`. -/
def pyLower (s : List Nat) : List Nat :=
  s.map fun c => if 65 ≤ c ∧ c ≤ 90 then c + 32 else c

/-- ASCII whitespace, as `str.strip()` removes. -/
def isPySpace (c : Nat) : Bool := c = 32 ∨ c = 9 ∨ c = 10 ∨ c = 13 ∨ c = 11 ∨ c = 12

/-- ASCII `str.strip()`. -/
def pyStrip (s : List Nat) : List Nat :=
  ((s.dropWhile isPySpace).reverse.dropWhile isPySpace).reverse

/-- `(value or "").strip().lower()` on an optional dimension string. -/
def capNorm (s : Option (List Nat)) : List Nat := pyLower (pyStrip (s.getD []))

/-- `_CAP_SEVERITY_SCORES.get(·, 0.3)`. -/
def capSeverityScore (s : List Nat) : Rat :=
  if s = asciiBytes "extreme" then 1
  else if s = asciiBytes "severe" then Rat.divInt 8 10
  else if s = asciiBytes "moderate" then Rat.divInt 5 10
  else if s = asciiBytes "minor" then Rat.divInt 25 100
  else if s = asciiBytes "unknown" then Rat.divInt 3 10
  else Rat.divInt 3 10

/-- `_CAP_URGENCY_SCORES.get(·, 0.3)`. -/
def capUrgencyScore (s : List Nat) : Rat :=
  if s = asciiBytes "immediate" then 1
  else if s = asciiBytes "expected" then Rat.divInt 75 100
  else if s = asciiBytes "future" then Rat.divInt 4 10
  else if s = asciiBytes "past" then Rat.divInt 1 10
  else if s = asciiBytes "unknown" then Rat.divInt 3 10
  else Rat.divInt 3 10

/-- `_CAP_CERTAINTY_SCORES.get(·, 0.3)`. -/
def capCertaintyScore (s : List Nat) : Rat :=
  if s = asciiBytes "observed" then 1
  else if s = asciiBytes "likely" then Rat.divInt 8 10
  else if s = asciiBytes "possible" then Rat.divInt 5 10
  else if s = asciiBytes "unlikely" then Rat.divInt 2 10
  else if s = asciiBytes "unknown" then Rat.divInt 3 10
  else Rat.divInt 3 10

/-- Python `round(x, 3)`. -/
def pyRound3 (x : Rat) : Rat := Rat.divInt (pyRound (rmul x 1000)) 1000

/-- `_compute_effective_priority(severity, urgency, certainty)`:
`round(sev·0.40 + urg·0.35 + cer·0.25, 3)`. -/
def computeEffectivePriority (severity urgency certainty : Option (List Nat)) : Rat :=
  let sevS := capSeverityScore (capNorm severity)
  let urgS := capUrgencyScore (capNorm urgency)
  let cerS := capCertaintyScore (capNorm certainty)
  pyRound3 (radd (radd (rmul sevS (Rat.divInt 40 100)) (rmul urgS (Rat.divInt 35 100)))
    (rmul cerS (Rat.divInt 25 100)))

/-- `pyRound` is monotone. -/
theorem pyRound_mono {x y : Rat} (h : x ≤ y) : pyRound x ≤ pyRound y := by
  simp only [pyRound, rfloorI_eq, rsub_eq, Rat.divInt_eq_div, Int.cast_one, div_one]
  have hf : ⌊x⌋ ≤ ⌊y⌋ := Int.floor_le_floor h
  rcases eq_or_lt_of_le hf with heq | hlt
  · rw [← heq]
    have hr : x - (⌊x⌋ : Rat) ≤ y - (⌊x⌋ : Rat) := by linarith
    split_ifs <;> first | omega | (exfalso; linarith)
  · have hx : x - (⌊x⌋ : Rat) < 1 ∨ True := Or.inr trivial
    split_ifs <;> omega

/-- `pyRound3` is monotone. -/
theorem pyRound3_mono {x y : Rat} (h : x ≤ y) : pyRound3 x ≤ pyRound3 y := by
  unfold pyRound3
  rw [Rat.divInt_eq_div, Rat.divInt_eq_div]
  have := pyRound_mono (by rw [rmul_eq, rmul_eq]; nlinarith : rmul x 1000 ≤ rmul y 1000)
  have hcast : ((pyRound (rmul x 1000)) : Rat) ≤ ((pyRound (rmul y 1000)) : Rat) := by
    exact_mod_cast this
  linarith

/-! ## Grade segmentation (`app/services/elevation.py`) -/

structure ElevationSample where
  kmAlong : Rat
  elevationM : Rat
  deriving DecidableEq, Repr

structure GradeSegment where
  fromKm : Rat
  toKm : Rat
  avgGradePct : Rat
  elevationChangeM : Rat
  fuelPenaltyFactor : Rat
  deriving DecidableEq, Repr

/-- `_GRADE_FUEL_FACTORS`: `(min_grade_pct, max_grade_pct, factor)` rows. -/
def gradeFuelFactors : List (Rat × Rat × Rat) :=
  [(Rat.divInt (-100) 1, Rat.divInt (-5) 1, Rat.divInt 85 100),
   (Rat.divInt (-5) 1, Rat.divInt (-2) 1, Rat.divInt 90 100),
   (Rat.divInt (-2) 1, Rat.divInt 2 1, 1),
   (Rat.divInt 2 1, Rat.divInt 5 1, Rat.divInt 115 100),
   (Rat.divInt 5 1, Rat.divInt 100 1, Rat.divInt 135 100)]

/-- First-match table walk of `_fuel_factor_for_grade`. -/
def fuelFactorLookup (g : Rat) : List (Rat × Rat × Rat) → Rat
  | [] => 1
  | (lo, hi, factor) :: rest =>
    if lo ≤ g ∧ g < hi then factor else fuelFactorLookup g rest

/-- `_fuel_factor_for_grade(grade_pct)`: first row with `lo <= g < hi`,
else `1.0`. -/
def fuelFactorForGrade (g : Rat) : Rat := fuelFactorLookup g gradeFuelFactors

/-- Executable `min` on `ℚ` (Python `min`). -/
def rmin (a b : Rat) : Rat := if a ≤ b then a else b

theorem rmin_eq (a b : Rat) : rmin a b = min a b := by
  simp only [rmin, min_def]

/-- Python `round(x, 2)`. -/
def pyRound2 (x : Rat) : Rat := Rat.divInt (pyRound (rmul x 100)) 100

/-- Python `round(x, 1)`. -/
def pyRound1 (x : Rat) : Rat := Rat.divInt (pyRound (rmul x 10)) 10

/-- The pair walk inside `_interp_elevation`: `prev`/`curr` over successive
samples; `lastElev` is the `samples[-1].elevation_m` fall-through. -/
def interpGo (km lastElev : Rat) : ElevationSample → List ElevationSample → Rat
  | _, [] => lastElev
  | prev, curr :: tl =>
    if km ≤ curr.kmAlong then
      let span := rsub curr.kmAlong prev.kmAlong
      if span < Rat.divInt 1 1000000 then curr.elevationM
      else radd prev.elevationM
        (rmul (rsub curr.elevationM prev.elevationM) (rdiv (rsub km prev.kmAlong) span))
    else interpGo km lastElev curr tl

/-- `_interp_elevation(samples, km)`. -/
def interpElevation (samples : List ElevationSample) (km : Rat) : Rat :=
  match samples with
  | [] => 0
  | s0 :: rest =>
    if km ≤ s0.kmAlong then s0.elevationM
    else
      let last := rest.getLastD s0
      if last.kmAlong ≤ km then last.elevationM
      else interpGo km last.elevationM s0 rest

/-- One segment of `compute_grade_segments`' while-loop, plus the advance to
the next `seg_start_km`; `fuel` bounds the iteration count (the caller
supplies `⌈total/len⌉ + 1`, enough whenever the length is positive — the
source loops forever on a non-positive length). -/
def gradeLoopGo (samples : List ElevationSample) (segLen total : Rat) :
    Nat → Rat → List GradeSegment
  | 0, _ => []
  | fuel + 1, segStart =>
    if segStart < total then
      let segEnd := rmin (radd segStart segLen) total
      let startElev := interpElevation samples segStart
      let endElev := interpElevation samples segEnd
      let distKm := rsub segEnd segStart
      let elevChange := rsub endElev startElev
      let gradePct :=
        if Rat.divInt 1 100 < distKm then rmul (rdiv elevChange (rmul distKm 1000)) 100
        else 0
      { fromKm := pyRound2 segStart
        toKm := pyRound2 segEnd
        avgGradePct := pyRound2 gradePct
        elevationChangeM := pyRound1 elevChange
        fuelPenaltyFactor := fuelFactorForGrade gradePct } :: gradeLoopGo samples segLen total fuel segEnd
    else []

/-- Executable `⌈x⌉` on `ℚ`. -/
def rceilI (x : Rat) : Int := -((-x.num) / (x.den : Int))

/-- `compute_grade_segments(profile, segment_length_km)` (the profile's
sample list is what the computation reads). -/
def computeGradeSegments (samples : List ElevationSample) (segmentLengthKm : Rat) :
    List GradeSegment :=
  match samples with
  | [] => []
  | [_] => []
  | s0 :: s1 :: rest =>
    let all := s0 :: s1 :: rest
    let total := (s1 :: rest).getLastD s0 |>.kmAlong
    let fuel := (rceilI (rdiv total segmentLengthKm)).toNat + 1
    gradeLoopGo all segmentLengthKm total fuel 0

/-- The fuel table exactly as the specification words it:
`g ≤ -5 → 0.85`, `g ≤ -2 → 0.90`, `g < 2 → 1.00`, `g < 5 → 1.15`,
`g ≥ 5 → 1.35`.  Modelled from the spec for comparison with
`fuelFactorForGrade`. -/
def specFuelFactor (g : Rat) : Rat :=
  if g ≤ Rat.divInt (-5) 1 then Rat.divInt 85 100
  else if g ≤ Rat.divInt (-2) 1 then Rat.divInt 90 100
  else if g < Rat.divInt 2 1 then 1
  else if g < Rat.divInt 5 1 then Rat.divInt 115 100
  else Rat.divInt 135 100

/-! ## Corridor extraction (`app/services/corridor.py`)

`math.cos(math.radians(·))` is transcendental; the geometry is parametrised
by an arbitrary `cosd : ℚ → ℚ` standing for that composite, so every theorem
below holds for the real cosine in particular.  The edge store
(`edges_queensland.db`) is a list of R-tree rectangles paired with edge
rows; the SQL `WHERE … LIMIT` is a filter-and-take over it. -/

structure BBoxQ where
  minLng : Rat
  minLat : Rat
  maxLng : Rat
  maxLat : Rat
  deriving DecidableEq, Repr

/-- Executable `max` on `ℚ` (Python `max`). -/
def rmax (a b : Rat) : Rat := if a < b then b else a

theorem rmax_eq (a b : Rat) : rmax a b = max a b := by
  simp only [rmax, max_def]
  split_ifs <;> first | rfl | omega | linarith

/-- `_bbox_expand(b, buffer_m)`: `dlat = buffer_m/111320`,
`dlng = buffer_m/(111320·max(0.2, cos(radians(mid_lat))))`. -/
def bboxExpand (cosd : Rat → Rat) (b : BBoxQ) (bufferM : Rat) : BBoxQ :=
  let dlat := rdiv bufferM 111320
  let midLat := rdiv (radd b.minLat b.maxLat) 2
  let cosv := rmax (Rat.divInt 2 10) (cosd midLat)
  let dlng := rdiv bufferM (rmul 111320 cosv)
  { minLng := rsub b.minLng dlng
    minLat := rsub b.minLat dlat
    maxLng := radd b.maxLng dlng
    maxLat := radd b.maxLat dlat }

/-- Fold for Python `min(...)` over a nonempty list. -/
def foldMin (x : Rat) (xs : List Rat) : Rat := xs.foldl rmin x

/-- Fold for Python `max(...)` over a nonempty list. -/
def foldMax (x : Rat) (xs : List Rat) : Rat := xs.foldl rmax x

/-- `_bbox_from_poly6` on the decoded points: the tight bbox, or the zero
bbox when there are no points. -/
def bboxFromPts (pts : List (Rat × Rat)) : BBoxQ :=
  match pts with
  | [] => ⟨0, 0, 0, 0⟩
  | p :: rest =>
    { minLng := foldMin p.2 (rest.map (·.2))
      minLat := foldMin p.1 (rest.map (·.1))
      maxLng := foldMax p.2 (rest.map (·.2))
      maxLat := foldMax p.1 (rest.map (·.1)) }

/-- One R-tree entry: the indexed rectangle of an edge. -/
structure RTreeRect where
  minLng : Rat
  maxLng : Rat
  minLat : Rat
  maxLat : Rat
  deriving DecidableEq, Repr

/-- One row of the `edges` table, as `Corridor.ensure`'s SQL selects it. -/
structure EdgeRowQ where
  fromId : Int
  toId : Int
  fromLng : Rat
  fromLat : Rat
  toLng : Rat
  toLat : Rat
  distM : Rat
  costS : Rat
  toll : Int
  ferry : Int
  unsealed : Int
  deriving DecidableEq, Repr

/-- The SQL predicate `r.max_lng >= minLng AND r.min_lng <= maxLng AND
r.max_lat >= minLat AND r.min_lat <= maxLat`. -/
def rectIntersects (r : RTreeRect) (minLng maxLng minLat maxLat : Rat) : Bool :=
  decide (minLng ≤ r.maxLng) && decide (r.minLng ≤ maxLng) &&
  decide (minLat ≤ r.maxLat) && decide (r.minLat ≤ maxLat)

/-- The `SELECT … JOIN edges_rtree … WHERE … LIMIT max_edges` query. -/
def queryEdges (store : List (RTreeRect × EdgeRowQ))
    (minLng maxLng minLat maxLat : Rat) (maxEdges : Nat) : List EdgeRowQ :=
  ((store.filter fun re => rectIntersects re.1 minLng maxLng minLat maxLat).take
    maxEdges).map (·.2)

structure CorridorNodeQ where
  id : Int
  lat : Rat
  lng : Rat
  deriving DecidableEq, Repr

structure CorridorEdgeQ where
  a : Int
  b : Int
  distanceM : Int
  durationS : Int
  flags : Nat
  deriving DecidableEq, Repr

structure CorridorGraphPackQ where
  bbox : BBoxQ
  nodes : List CorridorNodeQ
  edges : List CorridorEdgeQ
  deriving DecidableEq, Repr

/-- The `node_coords` dict build: record an id's `(lat, lng)` only when the
id is not yet present (Python dict keeps first insertion). -/
def insertNodeCoord (acc : List (Int × Rat × Rat)) (k : Int) (v : Rat × Rat) :
    List (Int × Rat × Rat) :=
  if acc.any fun kv => kv.1 = k then acc else acc ++ [(k, v)]

/-- The row loop of `Corridor.ensure`: fold node coordinates over rows. -/
def buildNodeCoords : List EdgeRowQ → List (Int × Rat × Rat) → List (Int × Rat × Rat)
  | [], acc => acc
  | e :: tl, acc =>
    let acc1 := insertNodeCoord acc e.fromId (e.fromLat, e.fromLng)
    let acc2 := insertNodeCoord acc1 e.toId (e.toLat, e.toLng)
    buildNodeCoords tl acc2

/-- `flags` bitmask: `1 = toll`, `2 = ferry`, `4 = unsealed`. -/
def corridorFlags (toll ferry unsealed : Int) : Nat :=
  (if toll = 1 then 1 else 0) ||| (if ferry = 1 then 2 else 0) |||
    (if unsealed = 1 then 4 else 0)

/-- One `CorridorEdge` from one row. -/
def edgeOfRow (e : EdgeRowQ) : CorridorEdgeQ :=
  { a := e.fromId
    b := e.toId
    distanceM := pyRound e.distM
    durationS := pyRound e.costS
    flags := corridorFlags e.toll e.ferry e.unsealed }

/-- The cache-miss (fresh build) path of `Corridor.ensure`: decode the
polyline, take the tight bbox, expand it, query the edge store, assemble
nodes and edges.  `none` models the exception a malformed polyline raises. -/
def corridorEnsureFresh (cosd : Rat → Rat) (store : List (RTreeRect × EdgeRowQ))
    (routePolyline : List Nat) (bufferM : Rat) (maxEdges : Nat) :
    Option CorridorGraphPackQ :=
  (decode_polyline6 routePolyline).map fun pts =>
    let baseBbox := bboxFromPts pts
    let corridorBbox := bboxExpand cosd baseBbox bufferM
    let rows := queryEdges store corridorBbox.minLng corridorBbox.maxLng
      corridorBbox.minLat corridorBbox.maxLat maxEdges
    { bbox := corridorBbox
      nodes := (buildNodeCoords rows []).map fun kv => ⟨kv.1, kv.2.1, kv.2.2⟩
      edges := rows.map edgeOfRow }

/-- Containment of a `(lat, lng)` point in a bbox. -/
def inBBox (lat lng : Rat) (b : BBoxQ) : Prop :=
  b.minLat ≤ lat ∧ lat ≤ b.maxLat ∧ b.minLng ≤ lng ∧ lng ≤ b.maxLng

instance (lat lng : Rat) (b : BBoxQ) : Decidable (inBBox lat lng b) := by
  unfold inBBox; infer_instance

/-- A store is well formed when every R-tree rectangle is the bounding
rectangle of its edge's two endpoints (how the index is built). -/
def storeWellFormed (store : List (RTreeRect × EdgeRowQ)) : Prop :=
  ∀ re ∈ store,
    re.1.minLng = rmin re.2.fromLng re.2.toLng ∧
    re.1.maxLng = rmax re.2.fromLng re.2.toLng ∧
    re.1.minLat = rmin re.2.fromLat re.2.toLat ∧
    re.1.maxLat = rmax re.2.fromLat re.2.toLat

instance (store : List (RTreeRect × EdgeRowQ)) : Decidable (storeWellFormed store) := by
  unfold storeWellFormed; infer_instance

/-! ## Overlay fan-out (`app/services/hazards.py`, `app/services/traffic.py`)

The poll is modelled on `Hazards.poll`; `Traffic.poll` shares the same
`_stable_key`, cache-freshness, `dedup[it.id] = it`, and parse-time expiry
code shape.  The environment supplies the per-feed parser outputs (before
the poll's spatial filter), `time.time()` as one instant `now`, and the
SQLite pack table as an association list.  `created_at` ISO strings are
carried as the epoch instant they denote. -/

/-- A query bbox as the four floats of `BBox4.model_dump()` (decimal floats,
so the JSON serialisation in the key payload is exact). -/
structure BBoxDec where
  minLng : DecNum
  minLat : DecNum
  maxLng : DecNum
  maxLat : DecNum
  deriving DecidableEq, Repr

/-- A normalised hazard/traffic event, reduced to the fields the claims
under test read: stable `id`, optional `end_at` epoch, optional event bbox
`(minLng, minLat, maxLng, maxLat)`, and an opaque payload standing for the
remaining fields. -/
structure OverlayEventQ where
  id : List Nat
  endAt : Option Rat
  bbox : Option (Rat × Rat × Rat × Rat)
  payload : Nat
  deriving DecidableEq, Repr

/-- `_is_expired(end_str)`: `time.time() > ts`. -/
def isExpired (endAt : Option Rat) (now : Rat) : Bool :=
  match endAt with
  | none => false
  | some ts => decide (ts < now)

/-- The expiry pruning every parser applies before returning its events
(`if _is_expired(expires): continue`). -/
def parsePrune (raw : List OverlayEventQ) (now : Rat) : List OverlayEventQ :=
  raw.filter fun ev => !(isExpired ev.endAt now)

/-- `_is_fresh(created_at, max_age_s)`. -/
def isFresh (createdAt now : Rat) (maxAgeS : Int) : Bool :=
  if maxAgeS ≤ 0 then false
  else decide (rsub now createdAt ≤ Rat.divInt maxAgeS 1)

/-- `_bbox_intersects(a, b)` for an event bbox tuple against the query bbox
values. -/
def eventBBoxIntersects (a : Rat × Rat × Rat × Rat)
    (minLng minLat maxLng maxLat : Rat) : Bool :=
  !(decide (a.2.2.1 < minLng) || decide (maxLng < a.1) ||
    decide (a.2.2.2 < minLat) || decide (maxLat < a.2.1))

/-- The poll's spatial admission: events with a bbox are intersection
filtered; events without one are admitted only when the query bbox diagonal
is at least 0.35° (the source compares `sqrt(dx²+dy²) ≥ 0.35`; both sides
are nonnegative, so squaring gives the same test in `ℚ`). -/
def keepEvent (minLng minLat maxLng maxLat : Rat) (ev : OverlayEventQ) : Bool :=
  match ev.bbox with
  | some a => eventBBoxIntersects a minLng minLat maxLng maxLat
  | none =>
    let dx := rsub maxLng minLng
    let dy := rsub maxLat minLat
    decide (Rat.divInt 1225 10000 ≤ radd (rmul dx dx) (rmul dy dy))

/-- The static state bbox registry of `geo_registry._STATE_BOUNDS`, listed
in the alphabetical order `sorted()` produces (filtering a sorted list
equals sorting the filtered generator). -/
def stateBounds : List (List Nat × (Rat × Rat × Rat × Rat)) :=
  [(asciiBytes "act", (Rat.divInt 1485 10, Rat.divInt (-360) 10, Rat.divInt 1495 10, Rat.divInt (-350) 10)),
   (asciiBytes "nsw", (Rat.divInt 1405 10, Rat.divInt (-376) 10, Rat.divInt 1540 10, Rat.divInt (-275) 10)),
   (asciiBytes "nt",  (Rat.divInt 1285 10, Rat.divInt (-265) 10, Rat.divInt 1385 10, Rat.divInt (-105) 10)),
   (asciiBytes "qld", (Rat.divInt 1375 10, Rat.divInt (-295) 10, Rat.divInt 1545 10, Rat.divInt (-95) 10)),
   (asciiBytes "sa",  (Rat.divInt 1285 10, Rat.divInt (-382) 10, Rat.divInt 1415 10, Rat.divInt (-255) 10)),
   (asciiBytes "tas", (Rat.divInt 1435 10, Rat.divInt (-438) 10, Rat.divInt 1490 10, Rat.divInt (-393) 10)),
   (asciiBytes "vic", (Rat.divInt 1405 10, Rat.divInt (-393) 10, Rat.divInt 1505 10, Rat.divInt (-335) 10)),
   (asciiBytes "wa",  (Rat.divInt 1125 10, Rat.divInt (-352) 10, Rat.divInt 1295 10, Rat.divInt (-135) 10))]

/-- `geo_registry._bbox_overlaps(a, bbox)`. -/
def stateOverlaps (a : Rat × Rat × Rat × Rat)
    (minLng minLat maxLng maxLat : Rat) : Bool :=
  !(decide (a.2.2.1 < minLng) || decide (maxLng < a.1) ||
    decide (a.2.2.2 < minLat) || decide (maxLat < a.2.1))

/-- `geo_registry.states_for_bbox(bbox)`: sorted codes of overlapping
states. -/
def statesForBBox (minLng minLat maxLng maxLat : Rat) : List (List Nat) :=
  (stateBounds.filter fun sb => stateOverlaps sb.2 minLng minLat maxLng maxLat).map (·.1)

/-- The `dedup[it.id] = it` write: replace in place when the key exists
(Python dicts keep the first-insertion position), else append. -/
def dictInsert (m : List (List Nat × OverlayEventQ)) (k : List Nat) (v : OverlayEventQ) :
    List (List Nat × OverlayEventQ) :=
  if m.any fun kv => kv.1 = k then
    m.map fun kv => if kv.1 = k then (k, v) else kv
  else m ++ [(k, v)]

/-- The dedup block of `Hazards.poll` / `Traffic.poll`:
`dedup = {}; for it in items: dedup[it.id] = it; list(dedup.values())`. -/
def dedupById (items : List OverlayEventQ) : List OverlayEventQ :=
  (items.foldl (fun m it => dictInsert m it.id it) []).map (·.2)

/-- A stored overlay pack, reduced to the fields the claims read. -/
structure OverlayPackQ where
  key : List Nat
  createdAt : Rat
  items : List OverlayEventQ
  deriving DecidableEq, Repr

/-- `get_hazards_pack(conn, key)`: key lookup in the pack table. -/
def cacheGet (cache : List (List Nat × OverlayPackQ)) (k : List Nat) : Option OverlayPackQ :=
  (cache.find? fun kv => kv.1 = k).map (·.2)

/-- `put_hazards_pack` (INSERT OR REPLACE). -/
def cachePut (cache : List (List Nat × OverlayPackQ)) (k : List Nat) (p : OverlayPackQ) :
    List (List Nat × OverlayPackQ) :=
  if cache.any fun kv => kv.1 = k then
    cache.map fun kv => if kv.1 = k then (k, p) else kv
  else cache ++ [(k, p)]

/-- The hazards key payload `{"bbox": …, "states": …, "algo_version": …}`
(traffic's differs only in field content). -/
def hazardsKeyPayload (bbox : BBoxDec) (states : List (List Nat)) (algo : List Nat) : Json :=
  Json.obj [
    (asciiBytes "bbox", Json.obj [
      (asciiBytes "minLng", .dec bbox.minLng),
      (asciiBytes "minLat", .dec bbox.minLat),
      (asciiBytes "maxLng", .dec bbox.maxLng),
      (asciiBytes "maxLat", .dec bbox.maxLat)]),
    (asciiBytes "states", .arr (states.map .str)),
    (asciiBytes "algo_version", .str algo)]

/-- The `_stable_key("hazards", …)` call in `Hazards.poll`. -/
def hazardsKey (bbox : BBoxDec) (states : List (List Nat)) (algo : List Nat) : List Nat :=
  stableKey (asciiBytes "hazards") (hazardsKeyPayload bbox states algo)

/-- `Hazards.poll`, over an explicit environment: the cache table, the raw
per-feed parser inputs (in gather order), the call instant and the cache
window.  Returns the pack together with the updated cache table.  The
`active_states`/ACT step, the cache-freshness gate, the per-event spatial
filter, parse-time expiry pruning and the last-write dedup are as in the
source; provider strings, warnings and HTTP failures (which only add
warnings) are outside the claims under test.

The `active_states` step: overlapping states, with NSW appended (and the
list re-sorted) when ACT is present without NSW. -/
def hazardsActiveStates (minLng minLat maxLng maxLat : Rat) : List (List Nat) :=
  let states0 := statesForBBox minLng minLat maxLng maxLat
  if (states0.any fun s => s = asciiBytes "act") &&
      !(states0.any fun s => s = asciiBytes "nsw") then
    sortBytesList (states0 ++ [asciiBytes "nsw"])
  else states0

/-- The gathered, parser-pruned, spatially admitted events of one fresh
poll, in gather order. -/
def hazardsCollect (sources : List (List OverlayEventQ)) (now : Rat)
    (minLng minLat maxLng maxLat : Rat) : List OverlayEventQ :=
  sources.flatMap fun src =>
    (parsePrune src now).filter (keepEvent minLng minLat maxLng maxLat)

def hazardsPoll (cache : List (List Nat × OverlayPackQ)) (bbox : BBoxDec)
    (sources : List (List OverlayEventQ)) (now : Rat) (cacheSeconds : Int)
    (algo : List Nat) : OverlayPackQ × List (List Nat × OverlayPackQ) :=
  let minLng := bbox.minLng.val
  let minLat := bbox.minLat.val
  let maxLng := bbox.maxLng.val
  let maxLat := bbox.maxLat.val
  let states := hazardsActiveStates minLng minLat maxLng maxLat
  let key := hazardsKey bbox states algo
  let cachedFresh :=
    match cacheGet cache key with
    | some p => if isFresh p.createdAt now cacheSeconds then some p else none
    | none => none
  match cachedFresh with
  | some p => (p, cache)
  | none =>
    let items :=
      if states = [] then []
      else hazardsCollect sources now minLng minLat maxLng maxLat
    let pack : OverlayPackQ := { key := key, createdAt := now, items := dedupById items }
    (pack, cachePut cache key pack)

/-! ## POI engine (`app/services/places.py`)

`_haversine_m` is transcendental; the whole engine is parametrised by an
arbitrary `hav : point → point → ℚ` standing for it, so every theorem holds
for the real great-circle distance in particular.  The stores (Overpass
response, local table, shared pool, tile ledger) are environment inputs. -/

/-- Python `int(x)`: truncation toward zero. -/
def pyInt (x : Rat) : Int := x.num.tdiv (x.den : Int)

/-- A `PlaceItem`, reduced to id and position plus an opaque payload. -/
structure PlaceItemQ where
  id : List Nat
  lat : Rat
  lng : Rat
  payload : Nat
  deriving DecidableEq, Repr

/-- The inner `while dist_acc + seg >= next_mark` emission loop of
`_sample_polyline`: emit the linear interpolation at each crossing and
advance the mark.  `fuel` bounds the iteration count (the caller supplies
`⌈(dist_acc + seg - next_mark)/interval_m⌉ + 1`, sufficient because the
interval is at least 1000). -/
def emitLoop (intervalM : Rat) (p0 p1 : Rat × Rat) (seg : Rat) :
    Nat → Rat → Rat → List (Rat × Rat) × Rat
  | 0, _, nextMark => ([], nextMark)
  | fuel + 1, distAcc, nextMark =>
    if nextMark ≤ radd distAcc seg then
      let overshoot := rsub nextMark distAcc
      let t := rmax 0 (rmin 1 (rdiv overshoot seg))
      let lat := radd p0.1 (rmul (rsub p1.1 p0.1) t)
      let lng := radd p0.2 (rmul (rsub p1.2 p0.2) t)
      let next := emitLoop intervalM p0 p1 seg fuel distAcc (radd nextMark intervalM)
      ((lat, lng) :: next.1, next.2)
    else ([], nextMark)

/-- The consecutive-pair walk of `_sample_polyline`: skip non-positive
segments (the NaN branch cannot arise over `ℚ`), emit interval crossings,
accumulate distance.  Returns the emitted samples and the final
`dist_acc`. -/
def sampleWalk (hav : (Rat × Rat) → (Rat × Rat) → Rat) (intervalM : Rat) :
    (Rat × Rat) → List (Rat × Rat) → Rat → Rat → List (Rat × Rat) × Rat
  | _, [], distAcc, _ => ([], distAcc)
  | prev, p :: tl, distAcc, nextMark =>
    let seg := hav prev p
    if seg ≤ 0 then sampleWalk hav intervalM p tl distAcc nextMark
    else
      let fuel := (rceilI (rdiv (rsub (radd distAcc seg) nextMark) intervalM)).toNat + 1
      let em := emitLoop intervalM prev p seg fuel distAcc nextMark
      let rest := sampleWalk hav intervalM p tl (radd distAcc seg) em.2
      (em.1 ++ rest.1, rest.2)

/-- `_sample_polyline(poly6, interval_km, include_endpoints=True)`:
decode, walk, endpoint handling, and the degenerate-input fallback to a
uniform point pick.  `none` models the exception a malformed polyline
raises. -/
def samplePolyline (hav : (Rat × Rat) → (Rat × Rat) → Rat) (poly : List Nat)
    (intervalKm : Rat) (includeEndpoints : Bool) : Option (List (Rat × Rat)) :=
  (decode_polyline6 poly).map fun pts =>
    match pts with
    | [] => []
    | [_] => []
    | p0 :: p1 :: restPts =>
      let intervalM := rmax 1000 (rmul intervalKm 1000)
      let walk := sampleWalk hav intervalM p0 (p1 :: restPts) 0 intervalM
      let distAcc := walk.2
      let last := (p1 :: restPts).getLastD p1
      let samples0 := (if includeEndpoints then [p0] else []) ++ walk.1
      let samples1 :=
        if includeEndpoints &&
            (samples0.isEmpty || decide (500 < hav (samples0.getLastD p0) last)) then
          samples0 ++ [last]
        else samples0
      let expectedMin := max 2 (pyInt (rdiv (rdiv distAcc 1000) intervalKm) - 1)
      if decide ((samples1.length : Int) < expectedMin) &&
          decide (rmul intervalM 2 < distAcc) then
        let nWant := (max 2 (pyInt (rdiv (rdiv distAcc 1000) intervalKm) + 2)).toNat
        let step := max 1 (pts.length / nWant)
        let fb := ((List.range pts.length).filter fun j => j % step = 0).map
          fun j => pts.getD j p0
        if 500 < hav (fb.getLastD p0) last then fb ++ [last] else fb
      else samples1

/-- The scan of `_min_distance_to_samples_m`: keep the best distance seen,
break early below 500 m.  `none` is the initial `float("inf")`. -/
def minDistGo (hav : (Rat × Rat) → (Rat × Rat) → Rat) (p : Rat × Rat) :
    List (Rat × Rat) → Option Rat → Option Rat
  | [], best => best
  | s :: tl, best =>
    let d := hav p s
    let improves := match best with
      | none => true
      | some b => decide (d < b)
    if improves then
      if d < 500 then some d else minDistGo hav p tl (some d)
    else minDistGo hav p tl best

/-- `_min_distance_to_samples_m(lat, lng, samples)`. -/
def minDistanceToSamples (hav : (Rat × Rat) → (Rat × Rat) → Rat) (p : Rat × Rat)
    (samples : List (Rat × Rat)) : Option Rat :=
  minDistGo hav p samples none

/-- The `_accept` distance test: `_min_distance_to_samples_m(…) <= buffer_m`
(`float("inf") <= buffer_m` is false). -/
def acceptDist (hav : (Rat × Rat) → (Rat × Rat) → Rat) (samples : List (Rat × Rat))
    (bufferM : Rat) (it : PlaceItemQ) : Bool :=
  match minDistanceToSamples hav (it.lat, it.lng) samples with
  | none => false
  | some d => decide (d ≤ bufferM)

/-- One tier's admission loop in `search_corridor_polyline`: `_accept`
(seen-id dedup plus the distance test), append, break at `limit`. -/
def acceptLoop (hav : (Rat × Rat) → (Rat × Rat) → Rat) (samples : List (Rat × Rat))
    (bufferM : Rat) (limit : Nat) :
    List PlaceItemQ → List PlaceItemQ × List (List Nat) → List PlaceItemQ × List (List Nat)
  | [], st => st
  | it :: tl, (items, seen) =>
    if !(seen.any fun k => k = it.id) && acceptDist hav samples bufferM it then
      let items2 := items ++ [it]
      let seen2 := seen ++ [it.id]
      if limit ≤ items2.length then (items2, seen2)
      else acceptLoop hav samples bufferM limit tl (items2, seen2)
    else acceptLoop hav samples bufferM limit tl (items, seen)

/-- The cache-miss pipeline of `Places.search_corridor_polyline`: sample the
route, then admit Overpass results first, then the local store supplement,
then the shared-pool supplement, each through `_accept`; cap at `limit`.
The environment supplies each tier's raw item lists (an HTTP failure is an
empty Overpass list).  `none` models the exception a malformed polyline
raises. -/
def searchCorridorPolyline (hav : (Rat × Rat) → (Rat × Rat) → Rat)
    (polyline : List Nat) (bufferKm sampleIntervalKm : Rat) (limit : Nat)
    (overpassItems localItems : List PlaceItemQ)
    (supaItems : Option (List PlaceItemQ)) : Option (List PlaceItemQ) :=
  (samplePolyline hav polyline sampleIntervalKm true).map fun samples =>
    if samples.isEmpty then []
    else
      let bufferM := rmul bufferKm 1000
      let st1 := acceptLoop hav samples bufferM limit overpassItems ([], [])
      let st2 :=
        if st1.1.length < limit then acceptLoop hav samples bufferM limit localItems st1
        else st1
      let st3 :=
        match supaItems with
        | some sup =>
          if st2.1.length < limit then acceptLoop hav samples bufferM limit sup st2
          else st2
        | none => st2
      st3.1.take limit

/-- `int(req.limit or 50)` followed by
`max(1, min(limit, places_hard_cap))` in `Places.search`. -/
def clampLimit (reqLimit hardCap : Int) : Int :=
  let l := if reqLimit = 0 then 50 else reqLimit
  max 1 (min l hardCap)

/-- A tier's admission loop in `Places.search` (seen-id dedup only, break at
`limit`). -/
def fillLoop (limit : Nat) :
    List PlaceItemQ → List PlaceItemQ × List (List Nat) → List PlaceItemQ × List (List Nat)
  | [], st => st
  | it :: tl, (items, seen) =>
    if seen.any fun k => k = it.id then fillLoop limit tl (items, seen)
    else
      let items2 := items ++ [it]
      let seen2 := seen ++ [it.id]
      if limit ≤ items2.length then (items2, seen2)
      else fillLoop limit tl (items2, seen2)

/-- The environment of one tile iteration of the Overpass top-up loop:
whether the ledger says the tile is fresh, whether the wall-clock budget
has run out before this tile, and the items the tile fetch returns. -/
structure TileFetch where
  fresh : Bool
  timeUp : Bool
  fetched : List PlaceItemQ
  deriving Repr

/-- The tile top-up loop of `Places.search`: stop at `limit`, stop when the
time budget is exceeded after at least one fetch, skip fresh tiles, and
stop after `max_overpass_tiles` fetches. -/
def tileLoop (limit maxTiles : Nat) :
    List TileFetch → Nat → List PlaceItemQ × List (List Nat) → List PlaceItemQ × List (List Nat)
  | [], _, st => st
  | t :: tl, fetchedCount, (items, seen) =>
    if limit ≤ items.length then (items, seen)
    else if t.timeUp && decide (0 < fetchedCount) then (items, seen)
    else if t.fresh then tileLoop limit maxTiles tl fetchedCount (items, seen)
    else
      let st2 := fillLoop limit t.fetched (items, seen)
      let fetched2 := fetchedCount + 1
      if maxTiles ≤ fetched2 then st2 else tileLoop limit maxTiles tl fetched2 st2

/-- The cache-miss path of `Places.search` (bbox/point search): resolve the
limit, read the local tier, return early at the satisfy ratio, read the
shared pool, then the tiled Overpass top-up; every return is `items[:limit]`.
The environment supplies the tier results and tile iterations; `hasBBox`
is `_bbox_from_req(req) is not None` and `hasFilters` is
`filters or name_clause`. -/
def placesSearch (hasBBox : Bool) (reqLimit hardCap : Int) (satisfyRatio : Rat)
    (localItems : List PlaceItemQ) (supaItems : Option (List PlaceItemQ))
    (hasFilters : Bool) (tiles : List TileFetch) (maxOverpassTiles : Nat) :
    List PlaceItemQ :=
  if !hasBBox then []
  else
    let limitI := clampLimit reqLimit hardCap
    let limit := limitI.toNat
    let needCount := (max 1 (pyInt (rmul (Rat.divInt limitI 1) satisfyRatio))).toNat
    let st1 := fillLoop limit localItems ([], [])
    if needCount ≤ st1.1.length then st1.1.take limit
    else
      let st2 :=
        match supaItems with
        | some sup => fillLoop limit sup st1
        | none => st1
      if needCount ≤ st2.1.length then st2.1.take limit
      else if !hasFilters then st2.1.take limit
      else
        let st3 := tileLoop limit maxOverpassTiles tiles 0 st2
        st3.1.take limit

/-! # The claims -/

/-! ## C6 — polyline6 round trip -/

/-- On-grid coordinate pairs are fixed by the round-trip image. -/
theorem map_roundPt_grid :
    ∀ (coords : List (Rat × Rat)),
    (∀ p ∈ coords,
      (∃ k : Int, p.1 = Rat.divInt k 1000000) ∧ (∃ k : Int, p.2 = Rat.divInt k 1000000)) →
    coords.map roundPt = coords := by
  intro coords
  induction coords with
  | nil => intro _; rfl
  | cons p tl ih =>
    intro hgrid
    obtain ⟨⟨k1, hk1⟩, ⟨k2, hk2⟩⟩ := hgrid p (by simp)
    have hfix : roundPt p = p := by
      obtain ⟨a, b⟩ := p
      simp only at hk1 hk2
      simp only [roundPt, hk1, hk2, q6_grid]
    simp only [List.map_cons, hfix, ih fun q hq => hgrid q (by simp [hq])]

/-- C6: for every finite coordinate list,
`decode_polyline6(encode_polyline6(coords))` yields a list of the same
length whose points each differ from the corresponding input point by at
most 1e-6 degrees in latitude and longitude, and equals the input exactly
when each input coordinate is an exact multiple of 1e-6 degrees. -/
theorem claim_C6_roundtrip (coords : List (Rat × Rat)) :
    decode_polyline6 (encode_polyline6 coords) = some (coords.map roundPt) ∧
    (coords.map roundPt).length = coords.length ∧
    (∀ p ∈ coords,
      |p.1 - (roundPt p).1| ≤ 1 / 1000000 ∧ |p.2 - (roundPt p).2| ≤ 1 / 1000000) ∧
    ((∀ p ∈ coords,
        (∃ k : Int, p.1 = Rat.divInt k 1000000) ∧ (∃ k : Int, p.2 = Rat.divInt k 1000000)) →
      coords.map roundPt = coords) := by
  refine ⟨decode_encode_polyline6 coords, coords.length_map roundPt, ?_,
    map_roundPt_grid coords⟩
  intro p _
  constructor <;> exact le_trans (q6_abs _) (by norm_num)

/-- C6 witness: the round trip at a concrete on-grid coordinate list, with
the grid hypothesis discharged explicitly. -/
theorem claim_C6_roundtrip_witness :
    decode_polyline6 (encode_polyline6 [(Rat.divInt 1 1000000, 0)]) =
      some ([(Rat.divInt 1 1000000, 0)].map roundPt) ∧
    [(Rat.divInt 1 1000000, 0)].map roundPt = [(Rat.divInt 1 1000000, 0)] :=
  ⟨(claim_C6_roundtrip [(Rat.divInt 1 1000000, 0)]).1,
   (claim_C6_roundtrip [(Rat.divInt 1 1000000, 0)]).2.2.2 (by
     intro p hp
     simp only [List.mem_singleton] at hp
     subst hp
     exact ⟨⟨1, rfl⟩, ⟨0, by decide⟩⟩)⟩

/-! ## C7 — CAP-AU composite monotonicity -/

/-- C7: if hazard event `a`'s severity, urgency and certainty each score the
same or higher than `b`'s under the fixed per-dimension scoring tables, then
`a`'s effective priority (`0.40·sev + 0.35·urg + 0.25·cer`, rounded to three
decimals by `_compute_effective_priority`) is at least `b`'s. -/
theorem claim_C7_cap_monotonic (sa ua ca sb ub cb : Option (List Nat))
    (hs : capSeverityScore (capNorm sb) ≤ capSeverityScore (capNorm sa))
    (hu : capUrgencyScore (capNorm ub) ≤ capUrgencyScore (capNorm ua))
    (hc : capCertaintyScore (capNorm cb) ≤ capCertaintyScore (capNorm ca)) :
    computeEffectivePriority sb ub cb ≤ computeEffectivePriority sa ua ca := by
  unfold computeEffectivePriority
  apply pyRound3_mono
  simp only [rmul_eq, radd_eq]
  have h40 : (Rat.divInt 40 100 : Rat) = 40 / 100 := Rat.divInt_eq_div 40 100
  have h35 : (Rat.divInt 35 100 : Rat) = 35 / 100 := Rat.divInt_eq_div 35 100
  have h25 : (Rat.divInt 25 100 : Rat) = 25 / 100 := Rat.divInt_eq_div 25 100
  rw [h40, h35, h25]
  have m1 := mul_le_mul_of_nonneg_right hs (by norm_num : (0 : Rat) ≤ 40 / 100)
  have m2 := mul_le_mul_of_nonneg_right hu (by norm_num : (0 : Rat) ≤ 35 / 100)
  have m3 := mul_le_mul_of_nonneg_right hc (by norm_num : (0 : Rat) ≤ 25 / 100)
  linarith

/-- C7 witness: `Severe + Immediate + Observed` dominates
`severe + future + possible` in all three dimensions, so its composite
priority is at least as high (the spec's scenario-5 pair). -/
theorem claim_C7_cap_monotonic_witness :
    computeEffectivePriority (some (asciiBytes "severe")) (some (asciiBytes "future"))
        (some (asciiBytes "possible")) ≤
      computeEffectivePriority (some (asciiBytes "Severe")) (some (asciiBytes "Immediate"))
        (some (asciiBytes "Observed")) :=
  claim_C7_cap_monotonic _ _ _ _ _ _ (by decide) (by decide) (by decide)

/-- The scenario-5 concrete values: the two composite priorities evaluate to
0.920 and 0.585 exactly as the specification computes them. -/
theorem cap_scenario5_values :
    computeEffectivePriority (some (asciiBytes "Severe")) (some (asciiBytes "Immediate"))
        (some (asciiBytes "Observed")) = Rat.divInt 920 1000 ∧
    computeEffectivePriority (some (asciiBytes "severe")) (some (asciiBytes "future"))
        (some (asciiBytes "possible")) = Rat.divInt 585 1000 := by
  constructor <;> decide

/-! ## C9 — fuel-penalty lookup table -/

/-- C9 counterexample: at grade exactly −5 % the code's table (half-open
rows, first match) assigns 0.90, while the claim's `g ≤ -5 → 0.85` assigns
0.85; a 5 km profile dropping 250 m realises that grade through
`compute_grade_segments`. -/
theorem claim_C9_counterexample :
    fuelFactorForGrade (Rat.divInt (-5) 1) = Rat.divInt 90 100 ∧
    specFuelFactor (Rat.divInt (-5) 1) = Rat.divInt 85 100 ∧
    fuelFactorForGrade (Rat.divInt (-5) 1) ≠ specFuelFactor (Rat.divInt (-5) 1) ∧
    (computeGradeSegments [⟨0, 250⟩, ⟨5, 0⟩] 5).map (·.fuelPenaltyFactor) =
      [Rat.divInt 90 100] := by
  refine ⟨by decide, by decide, by decide, by decide⟩

/-- Every segment the loop emits carries `_fuel_factor_for_grade` of its
(unrounded) average grade. -/
theorem gradeLoopGo_factor :
    ∀ (fuel : Nat) (samples : List ElevationSample) (segLen total segStart : Rat)
      (seg : GradeSegment), seg ∈ gradeLoopGo samples segLen total fuel segStart →
      ∃ g : Rat, seg.fuelPenaltyFactor = fuelFactorForGrade g ∧ seg.avgGradePct = pyRound2 g := by
  intro fuel
  induction fuel with
  | zero => intro _ _ _ _ _ h; simp [gradeLoopGo] at h
  | succ fuel ih =>
    intro samples segLen total segStart seg h
    simp only [gradeLoopGo] at h
    split at h
    · rcases List.mem_cons.mp h with hh | ht
      · subst hh
        exact ⟨_, rfl, rfl⟩
      · exact ih samples segLen total _ seg ht
    · simp at h

/-- C9 amended: the fuel multiplier is the half-open table
`[-100,-5) → 0.85`, `[-5,-2) → 0.90`, `[-2,2) → 1.00`, `[2,5) → 1.15`,
`[5,100) → 1.35`, and `1.0` outside `[-100,100)`; each segment that
`compute_grade_segments` emits carries exactly this multiplier of its
unrounded average grade. -/
theorem claim_C9_amended :
    (∀ g : Rat,
      fuelFactorForGrade g =
        if -100 ≤ g ∧ g < -5 then Rat.divInt 85 100
        else if -5 ≤ g ∧ g < -2 then Rat.divInt 90 100
        else if -2 ≤ g ∧ g < 2 then 1
        else if 2 ≤ g ∧ g < 5 then Rat.divInt 115 100
        else if 5 ≤ g ∧ g < 100 then Rat.divInt 135 100
        else 1) ∧
    (∀ (samples : List ElevationSample) (segLen : Rat) (seg : GradeSegment),
      seg ∈ computeGradeSegments samples segLen →
      ∃ g : Rat, seg.fuelPenaltyFactor = fuelFactorForGrade g ∧
        seg.avgGradePct = pyRound2 g) := by
  constructor
  · intro g
    have e1 : (Rat.divInt (-100) 1 : Rat) = -100 := by
      rw [Rat.divInt_eq_div]; norm_num
    have e2 : (Rat.divInt (-5) 1 : Rat) = -5 := by
      rw [Rat.divInt_eq_div]; norm_num
    have e3 : (Rat.divInt (-2) 1 : Rat) = -2 := by
      rw [Rat.divInt_eq_div]; norm_num
    have e4 : (Rat.divInt 2 1 : Rat) = 2 := by
      rw [Rat.divInt_eq_div]; norm_num
    have e5 : (Rat.divInt 5 1 : Rat) = 5 := by
      rw [Rat.divInt_eq_div]; norm_num
    have e6 : (Rat.divInt 100 1 : Rat) = 100 := by
      rw [Rat.divInt_eq_div]; norm_num
    simp only [fuelFactorForGrade, gradeFuelFactors, fuelFactorLookup, e1, e2, e3, e4, e5, e6]
  · intro samples segLen seg h
    unfold computeGradeSegments at h
    split at h
    · simp at h
    · simp at h
    · exact gradeLoopGo_factor _ _ _ _ _ _ h

/-- C9 amended witness: the −5 % profile instantiates the second conjunct —
its one segment's multiplier is `_fuel_factor_for_grade` of its grade. -/
theorem claim_C9_amended_witness :
    ∃ g : Rat,
      (({ fromKm := 0, toKm := 5, avgGradePct := -5, elevationChangeM := -250,
          fuelPenaltyFactor := Rat.divInt 90 100 } : GradeSegment)).fuelPenaltyFactor =
        fuelFactorForGrade g ∧
      (({ fromKm := 0, toKm := 5, avgGradePct := -5, elevationChangeM := -250,
          fuelPenaltyFactor := Rat.divInt 90 100 } : GradeSegment)).avgGradePct = pyRound2 g :=
  claim_C9_amended.2 [⟨0, 250⟩, ⟨5, 0⟩] 5 _ (by decide)

/-! ## C1 — content-address key formula -/

/-- The zero-bbox hazards key payload used as the concrete instance. -/
def c1Payload : Json :=
  hazardsKeyPayload ⟨⟨0, 1⟩, ⟨0, 1⟩, ⟨0, 1⟩, ⟨0, 1⟩⟩ []
    (asciiBytes "hazards.v3.multistate.cap")

/-- C1 counterexample: the hazards pack is a cacheable artifact whose key is
`_stable_key("hazards", payload)` — SHA-256 of `"hazards::" + canonical_json`
— not `base64url(sha256(canonical_json(payload)))`: at the zero bbox with no
active states the two differ (both shown byte-exactly, matching
`hashlib`/`base64` on the same payload). -/
theorem claim_C1_counterexample :
    hazardsKey ⟨⟨0, 1⟩, ⟨0, 1⟩, ⟨0, 1⟩, ⟨0, 1⟩⟩ [] (asciiBytes "hazards.v3.multistate.cap") =
      asciiBytes "1h1SlUXRhK9ptipFkxUmYbdMqeexoDtvWXFEmqzs1eg" ∧
    specContentKey c1Payload = asciiBytes "KW4U6qldMuswN01_cNb2iuDf3Q0F1ELrqLKBH8ObA7g" ∧
    hazardsKey ⟨⟨0, 1⟩, ⟨0, 1⟩, ⟨0, 1⟩, ⟨0, 1⟩⟩ [] (asciiBytes "hazards.v3.multistate.cap") ≠
      specContentKey c1Payload := by
  refine ⟨by decide, by decide, by decide⟩

/-- C1 amended: the `keying.py` keys (corridor, places) follow the spec's
`base64url(sha256(canonical_json(payload)))` unpadded formula; the overlay
keys prepend `"hazards::"` (resp. `"traffic::"`) to the canonical JSON
before hashing; and the corridor-polyline places key is the lower-case hex
SHA-256 of a `CorridorPlaces/v1|…` string that embeds the hex SHA-256 of
the polyline — not the base64url form. -/
theorem claim_C1_amended :
    (∀ (routeKey : List Nat) (bufferM maxEdges : Int) (profile algo : List Nat),
      corridor_key routeKey bufferM maxEdges profile algo =
        specContentKey (corridorKeyPayload routeKey bufferM maxEdges profile algo)) ∧
    (∀ (req : Json) (algo : List Nat),
      places_key req algo = specContentKey (placesKeyPayload req algo)) ∧
    (∀ (bbox : BBoxDec) (states : List (List Nat)) (algo : List Nat),
      hazardsKey bbox states algo =
        rstripEq (b64urlEncode (sha256
          (asciiBytes "hazards::" ++ canonicalJson (hazardsKeyPayload bbox states algo))))) ∧
    (∀ (poly : List Nat) (bufferKm : DecNum) (cats : List (List Nat)) (limit : Int)
        (algo : List Nat),
      corridorPlacesKey poly bufferKm cats limit algo =
        hexOfBytes (sha256 (corridorPlacesRaw poly bufferKm cats limit algo))) := by
  refine ⟨fun _ _ _ _ _ => rfl, fun _ _ => rfl, ?_, fun _ _ _ _ _ => rfl⟩
  intro bbox states algo
  show rstripEq (b64urlEncode (sha256
    (asciiBytes "hazards" ++ (asciiBytes "::" ++ canonicalJson (hazardsKeyPayload bbox states algo))))) = _
  rw [← List.append_assoc]
  have h : asciiBytes "hazards" ++ asciiBytes "::" = asciiBytes "hazards::" := by decide
  rw [h]

/-- C1 amended witness: the corridor key of a concrete request equals the
spec formula on its payload byte-for-byte. -/
theorem claim_C1_amended_witness :
    corridor_key (asciiBytes "rk") 15000 350000 (asciiBytes "drive")
        (asciiBytes "corridor.v1.edgesqlite") =
      specContentKey (corridorKeyPayload (asciiBytes "rk") 15000 350000
        (asciiBytes "drive") (asciiBytes "corridor.v1.edgesqlite")) :=
  claim_C1_amended.1 (asciiBytes "rk") 15000 350000 (asciiBytes "drive")
    (asciiBytes "corridor.v1.edgesqlite")

/-! ## C2 / C8 — corridor extraction -/

/-- Everything `insertNodeCoord` holds was already there or is the inserted
pair. -/
theorem mem_insertNodeCoord {acc : List (Int × Rat × Rat)} {k : Int} {v : Rat × Rat}
    {kv : Int × Rat × Rat} (h : kv ∈ insertNodeCoord acc k v) :
    kv ∈ acc ∨ kv = (k, v.1, v.2) := by
  unfold insertNodeCoord at h
  split at h
  · exact Or.inl h
  · rcases List.mem_append.mp h with h1 | h1
    · exact Or.inl h1
    · right
      simpa using h1

/-- Every recorded node coordinate comes from the accumulator or is an
endpoint of one of the rows. -/
theorem mem_buildNodeCoords :
    ∀ (rows : List EdgeRowQ) (acc : List (Int × Rat × Rat)) (kv : Int × Rat × Rat),
    kv ∈ buildNodeCoords rows acc →
    kv ∈ acc ∨ ∃ e ∈ rows,
      kv = (e.fromId, e.fromLat, e.fromLng) ∨ kv = (e.toId, e.toLat, e.toLng) := by
  intro rows
  induction rows with
  | nil => intro acc kv h; exact Or.inl h
  | cons e tl ih =>
    intro acc kv h
    rcases ih _ kv h with hacc | ⟨e', he', hmatch⟩
    · rcases mem_insertNodeCoord hacc with hacc1 | heq
      · rcases mem_insertNodeCoord hacc1 with hacc0 | heq
        · exact Or.inl hacc0
        · exact Or.inr ⟨e, by simp, Or.inl heq⟩
      · exact Or.inr ⟨e, by simp, Or.inr heq⟩
    · exact Or.inr ⟨e', by simp [he'], hmatch⟩

/-- Every row the query returns is a store entry whose rectangle passed the
intersection predicate. -/
theorem mem_queryEdges {store : List (RTreeRect × EdgeRowQ)}
    {minLng maxLng minLat maxLat : Rat} {m : Nat} {e : EdgeRowQ}
    (h : e ∈ queryEdges store minLng maxLng minLat maxLat m) :
    ∃ re ∈ store, re.2 = e ∧ rectIntersects re.1 minLng maxLng minLat maxLat = true := by
  unfold queryEdges at h
  obtain ⟨re, hre, h2⟩ := List.mem_map.mp h
  have hre2 := List.mem_of_mem_take hre
  obtain ⟨hmem, hpred⟩ := List.mem_filter.mp hre2
  exact ⟨re, hmem, h2, hpred⟩

/-- C2 counterexample: a fresh `Corridor.ensure` pack can record an edge
endpoint outside its declared bbox — an edge from inside the corridor to a
far-away node is selected because its R-tree rectangle intersects the
corridor bbox, and both endpoints enter `nodes`. -/
theorem claim_C2_counterexample :
    ((corridorEnsureFresh (fun _ => 1)
        [(⟨0, 50, 0, 50⟩, ⟨1, 2, 0, 0, 50, 50, 1000, 60, 0, 0, 0⟩)]
        (encode_polyline6 [(0, 0), (Rat.divInt 1 100, Rat.divInt 1 100)])
        15000 350000).map
      fun pack => pack.nodes.all fun n => decide (inBBox n.lat n.lng pack.bbox)) =
      some false := by decide

/-- C2 amended: a fresh pack's declared bbox equals the buffer expansion of
the decoded polyline's tight bbox, and every node is an endpoint of a store
row whose endpoint bounding rectangle intersects that declared bbox (the
endpoint itself need not lie inside it). -/
theorem claim_C2_amended (cosd : Rat → Rat) (store : List (RTreeRect × EdgeRowQ))
    (poly : List Nat) (buffer : Rat) (maxEdges : Nat)
    (pts : List (Rat × Rat)) (pack : CorridorGraphPackQ)
    (hdec : decode_polyline6 poly = some pts)
    (hpack : corridorEnsureFresh cosd store poly buffer maxEdges = some pack)
    (hwf : storeWellFormed store) :
    pack.bbox = bboxExpand cosd (bboxFromPts pts) buffer ∧
    ∀ n ∈ pack.nodes, ∃ re ∈ store,
      ((n.id = re.2.fromId ∧ n.lat = re.2.fromLat ∧ n.lng = re.2.fromLng) ∨
       (n.id = re.2.toId ∧ n.lat = re.2.toLat ∧ n.lng = re.2.toLng)) ∧
      rectIntersects ⟨rmin re.2.fromLng re.2.toLng, rmax re.2.fromLng re.2.toLng,
          rmin re.2.fromLat re.2.toLat, rmax re.2.fromLat re.2.toLat⟩
        pack.bbox.minLng pack.bbox.maxLng pack.bbox.minLat pack.bbox.maxLat = true := by
  unfold corridorEnsureFresh at hpack
  rw [hdec] at hpack
  simp only [Option.map_some', Option.some.injEq] at hpack
  subst hpack
  refine ⟨rfl, ?_⟩
  intro n hn
  obtain ⟨kv, hkv, hn2⟩ := List.mem_map.mp hn
  rcases mem_buildNodeCoords _ _ _ hkv with h0 | ⟨e, he, hmatch⟩
  · simp at h0
  · obtain ⟨re, hre, hre2, hpred⟩ := mem_queryEdges he
    subst hre2
    subst hn2
    obtain ⟨h1, h2, h3, h4⟩ := hwf re hre
    obtain ⟨⟨rl, rh, rs, rt⟩, row⟩ := re
    simp only at h1 h2 h3 h4
    subst h1; subst h2; subst h3; subst h4
    refine ⟨_, hre, ?_, hpred⟩
    rcases hmatch with h | h <;> subst h
    · exact Or.inl ⟨rfl, rfl, rfl⟩
    · exact Or.inr ⟨rfl, rfl, rfl⟩

/-- The decoded points of the C2 witness polyline. -/
def c2Pts : List (Rat × Rat) := [(0, 0), (Rat.divInt 1 100, Rat.divInt 1 100)]

/-- A one-edge store whose edge leaves the corridor: endpoints `(0,0)` and
`(50,50)`, R-tree rectangle the endpoints' bounding rectangle. -/
def c2Store : List (RTreeRect × EdgeRowQ) :=
  [(⟨0, 50, 0, 50⟩, ⟨1, 2, 0, 0, 50, 50, 1000, 60, 0, 0, 0⟩)]

def c2Poly : List Nat := encode_polyline6 c2Pts

def c2Pack : CorridorGraphPackQ :=
  (corridorEnsureFresh (fun _ => 1) c2Store c2Poly 15000 350000).getD ⟨⟨0, 0, 0, 0⟩, [], []⟩

/-- C2 amended witness: the amended theorem applied to the concrete store
and polyline of the counterexample (whose store is well formed). -/
theorem claim_C2_amended_witness :
    c2Pack.bbox = bboxExpand (fun _ => 1) (bboxFromPts c2Pts) 15000 ∧
    ∀ n ∈ c2Pack.nodes, ∃ re ∈ c2Store,
      ((n.id = re.2.fromId ∧ n.lat = re.2.fromLat ∧ n.lng = re.2.fromLng) ∨
       (n.id = re.2.toId ∧ n.lat = re.2.toLat ∧ n.lng = re.2.toLng)) ∧
      rectIntersects ⟨rmin re.2.fromLng re.2.toLng, rmax re.2.fromLng re.2.toLng,
          rmin re.2.fromLat re.2.toLat, rmax re.2.fromLat re.2.toLat⟩
        c2Pack.bbox.minLng c2Pack.bbox.maxLng c2Pack.bbox.minLat c2Pack.bbox.maxLat = true :=
  claim_C2_amended (fun _ => 1) c2Store c2Poly 15000 350000 c2Pts c2Pack
    (by decide) (by decide) (by decide)

/-- C8 counterexample input: a polyline that decodes to a single point, and
a store with one edge near that point. -/
def c8Poly : List Nat := encode_polyline6 [(0, 0)]

def c8Store : List (RTreeRect × EdgeRowQ) :=
  [(⟨0, 1, 0, 1⟩, ⟨1, 2, 0, 0, 1, 1, 1000, 60, 0, 0, 0⟩)]

/-- C8 counterexample: `Corridor.ensure` has no fewer-than-two-points
special case — a single-point polyline still expands a bbox around the
point, queries the store, and returns a pack with one edge and two nodes,
not a zero-sized pack. -/
theorem claim_C8_counterexample :
    ((corridorEnsureFresh (fun _ => 1) c8Store c8Poly 15000 350000).map
      fun pack => (pack.nodes.length, pack.edges.length)) = some (2, 1) ∧
    (decode_polyline6 c8Poly).map List.length = some 1 := by
  constructor <;> decide

/-- C8 amended: a polyline decoding to fewer than two points is not
special-cased; the pack holds exactly the rows the edge store returns for
the buffer expansion of the degenerate tight bbox, and is zero-sized iff
that query returns nothing. -/
theorem claim_C8_amended (cosd : Rat → Rat) (store : List (RTreeRect × EdgeRowQ))
    (poly : List Nat) (buffer : Rat) (maxEdges : Nat)
    (pts : List (Rat × Rat)) (pack : CorridorGraphPackQ)
    (hdec : decode_polyline6 poly = some pts)
    (_hlen : pts.length < 2)
    (hpack : corridorEnsureFresh cosd store poly buffer maxEdges = some pack) :
    pack.edges =
      (queryEdges store (bboxExpand cosd (bboxFromPts pts) buffer).minLng
        (bboxExpand cosd (bboxFromPts pts) buffer).maxLng
        (bboxExpand cosd (bboxFromPts pts) buffer).minLat
        (bboxExpand cosd (bboxFromPts pts) buffer).maxLat maxEdges).map edgeOfRow ∧
    ((pack.nodes = [] ∧ pack.edges = []) ↔
      queryEdges store (bboxExpand cosd (bboxFromPts pts) buffer).minLng
        (bboxExpand cosd (bboxFromPts pts) buffer).maxLng
        (bboxExpand cosd (bboxFromPts pts) buffer).minLat
        (bboxExpand cosd (bboxFromPts pts) buffer).maxLat maxEdges = []) := by
  unfold corridorEnsureFresh at hpack
  rw [hdec] at hpack
  simp only [Option.map_some', Option.some.injEq] at hpack
  subst hpack
  refine ⟨rfl, ?_, ?_⟩
  · intro ⟨_, he⟩
    exact List.map_eq_nil_iff.mp he
  · intro hq
    simp [hq, buildNodeCoords]

/-! ## C3 — overlay dedup keeps last-seen, not first-seen -/

/-- The ids of a collection in first-occurrence order. -/
def firstSeenIds (items : List OverlayEventQ) : List (List Nat) :=
  items.foldl (fun acc it => if acc.any fun k => k = it.id then acc else acc ++ [it.id]) []

/-- The dict fold of the dedup block, from an arbitrary accumulator. -/
def dictFold (items : List OverlayEventQ) (m : List (List Nat × OverlayEventQ)) :
    List (List Nat × OverlayEventQ) :=
  items.foldl (fun m it => dictInsert m it.id it) m

theorem firstSeenIds_concat (l : List OverlayEventQ) (x : OverlayEventQ) :
    firstSeenIds (l ++ [x]) =
      if (firstSeenIds l).any fun k => k = x.id then firstSeenIds l
      else firstSeenIds l ++ [x.id] := by
  unfold firstSeenIds
  rw [List.foldl_append]
  rfl

/-- The keys after a dict write: unchanged when the key exists, appended
otherwise. -/
theorem dictInsert_keys (m : List (List Nat × OverlayEventQ)) (k : List Nat)
    (v : OverlayEventQ) :
    (dictInsert m k v).map (·.1) =
      if m.any (fun kv => kv.1 = k) then m.map (·.1) else m.map (·.1) ++ [k] := by
  unfold dictInsert
  by_cases h : (m.any fun kv => kv.1 = k) = true
  · rw [if_pos h, if_pos h, List.map_map]
    apply List.map_congr_left
    intro kv _
    by_cases hk : kv.1 = k
    · simp [hk]
    · simp [hk]
  · rw [if_neg h, if_neg h]
    simp

/-- Membership after a dict write: an untouched entry with a different key,
or the written pair. -/
theorem mem_dictInsert {m : List (List Nat × OverlayEventQ)} {k : List Nat}
    {v : OverlayEventQ} {kv : List Nat × OverlayEventQ} (h : kv ∈ dictInsert m k v) :
    (kv ∈ m ∧ kv.1 ≠ k) ∨ kv = (k, v) := by
  unfold dictInsert at h
  split at h
  · obtain ⟨kv0, hkv0, heq⟩ := List.mem_map.mp h
    by_cases hk : kv0.1 = k
    · right; rw [← heq]; simp [hk]
    · left
      rw [if_neg hk] at heq
      exact ⟨heq ▸ hkv0, heq ▸ hk⟩
  · rename_i hany
    rcases List.mem_append.mp h with h1 | h1
    · left
      refine ⟨h1, fun hk => ?_⟩
      exact hany (List.any_eq_true.mpr ⟨kv, h1, by simp [hk]⟩)
    · right; simpa using h1

/-- A dict write keeps every existing key reachable. -/
theorem dictInsert_any_key {m : List (List Nat × OverlayEventQ)} {k x : List Nat}
    {v : OverlayEventQ} (h : (m.any fun kv => kv.1 = x) = true) :
    ((dictInsert m k v).any fun kv => kv.1 = x) = true := by
  obtain ⟨kv, hkv, hx⟩ := List.any_eq_true.mp h
  simp only [decide_eq_true_eq] at hx
  unfold dictInsert
  split
  · apply List.any_eq_true.mpr
    by_cases hk : kv.1 = k
    · exact ⟨(k, v), List.mem_map.mpr ⟨kv, hkv, by simp [hk]⟩, by simp [← hx, hk]⟩
    · exact ⟨kv, List.mem_map.mpr ⟨kv, hkv, by simp [hk]⟩, by simp [hx]⟩
  · exact List.any_eq_true.mpr ⟨kv, List.mem_append_left _ hkv, by simp [hx]⟩

/-- A dict write makes its own key reachable. -/
theorem dictInsert_any_self (m : List (List Nat × OverlayEventQ)) (k : List Nat)
    (v : OverlayEventQ) :
    ((dictInsert m k v).any fun kv => kv.1 = k) = true := by
  unfold dictInsert
  split
  · rename_i hany
    obtain ⟨kv, hkv, hx⟩ := List.any_eq_true.mp hany
    simp only [decide_eq_true_eq] at hx
    exact List.any_eq_true.mpr ⟨(k, v), List.mem_map.mpr ⟨kv, hkv, by simp [hx]⟩, by simp⟩
  · exact List.any_eq_true.mpr ⟨(k, v), List.mem_append_right _ (by simp), by simp⟩

/-- The dict-fold invariant: after processing `processed`, the dict holds
one entry per first-seen id, in first-seen order, and each entry's value is
the last event of `processed` with that id. -/
theorem dictFold_inv :
    ∀ (rest : List OverlayEventQ) (m : List (List Nat × OverlayEventQ))
      (processed : List OverlayEventQ),
    (∀ e ∈ processed, (m.any fun kv => kv.1 = e.id) = true) →
    (∀ kv ∈ m, kv.2.id = kv.1) →
    (∀ kv ∈ m, ((processed.filter fun e => e.id = kv.1).getLast?) = some kv.2) →
    m.map (·.1) = firstSeenIds processed →
    (∀ kv ∈ dictFold rest m, kv.2.id = kv.1) ∧
    (∀ kv ∈ dictFold rest m,
      (((processed ++ rest).filter fun e => e.id = kv.1).getLast?) = some kv.2) ∧
    (dictFold rest m).map (·.1) = firstSeenIds (processed ++ rest) := by
  intro rest
  induction rest with
  | nil =>
    intro m processed _ h1 h2 h3
    simp only [dictFold, List.foldl_nil, List.append_nil]
    exact ⟨h1, h2, h3⟩
  | cons it tl ih =>
    intro m processed h0 h1 h2 h3
    have hstep0 : ∀ e ∈ processed ++ [it],
        ((dictInsert m it.id it).any fun kv => kv.1 = e.id) = true := by
      intro e he
      rcases List.mem_append.mp he with he1 | he1
      · exact dictInsert_any_key (h0 e he1)
      · simp only [List.mem_singleton] at he1
        subst he1
        exact dictInsert_any_self m e.id e
    have hstep1 : ∀ kv ∈ dictInsert m it.id it, kv.2.id = kv.1 := by
      intro kv hkv
      rcases mem_dictInsert hkv with ⟨hm, _⟩ | hkv2
      · exact h1 kv hm
      · subst hkv2; rfl
    have hstep2 : ∀ kv ∈ dictInsert m it.id it,
        (((processed ++ [it]).filter fun e => e.id = kv.1).getLast?) = some kv.2 := by
      intro kv hkv
      rcases mem_dictInsert hkv with ⟨hm, hne⟩ | hkv2
      · rw [List.filter_append]
        have hfalse : (decide (it.id = kv.1)) = false := by
          simp only [decide_eq_false_iff_not]
          intro hk
          exact hne hk.symm
        simp only [List.filter_cons, List.filter_nil, hfalse, Bool.false_eq_true, if_false]
        simpa using h2 kv hm
      · subst hkv2
        rw [List.filter_append]
        simp only [List.filter_cons, List.filter_nil]
        rw [if_pos (by simp)]
        exact List.getLast?_concat _
    have hstep3 : (dictInsert m it.id it).map (·.1) = firstSeenIds (processed ++ [it]) := by
      rw [dictInsert_keys, firstSeenIds_concat, ← h3]
      have hany : ∀ (mm : List (List Nat × OverlayEventQ)),
          ((mm.map (·.1)).any fun k => k = it.id) = (mm.any fun kv => kv.1 = it.id) := by
        intro mm
        induction mm with
        | nil => rfl
        | cons a tll ihh => simp [ihh]
      rw [hany]
    have hres := ih (dictInsert m it.id it) (processed ++ [it]) hstep0 hstep1 hstep2 hstep3
    have heq : processed ++ it :: tl = (processed ++ [it]) ++ tl := by simp
    rw [heq]
    exact hres

/-- Events in the dedup output were collected. -/
theorem mem_of_mem_dedupById {items : List OverlayEventQ} {ev : OverlayEventQ}
    (h : ev ∈ dedupById items) : ev ∈ items := by
  have h' : ev ∈ (dictFold items []).map (·.2) := h
  obtain ⟨kv, hkv, hev⟩ := List.mem_map.mp h'
  have inv := dictFold_inv items [] [] (by simp) (by simp) (by simp)
    (by simp [firstSeenIds])
  have h2 := inv.2.1 kv hkv
  simp only [List.nil_append] at h2
  have hmem := List.mem_of_getLast?_eq_some h2
  have hmem2 := List.mem_of_mem_filter hmem
  exact hev ▸ hmem2

/-- A point bbox inside the QLD query bbox of the C3/C4 counterexamples. -/
def c3pt : Rat × Rat × Rat × Rat :=
  (Rat.divInt 15305 100, Rat.divInt (-2795) 100, Rat.divInt 15305 100, Rat.divInt (-2795) 100)

/-- First-gathered event with id `x`. -/
def c3first : OverlayEventQ := ⟨asciiBytes "x", none, some c3pt, 0⟩

/-- Second-gathered event with the same id `x` but a different payload. -/
def c3second : OverlayEventQ := ⟨asciiBytes "x", none, some c3pt, 1⟩

/-- C3 counterexample: two collected events with the same id and different
payloads — the poll's returned pack keeps the *second*-seen event, not the
first-seen one the claim states. -/
theorem claim_C3_counterexample :
    ((hazardsPoll [] ⟨⟨1530, 1⟩, ⟨-280, 1⟩, ⟨1531, 1⟩, ⟨-279, 1⟩⟩
        [[c3first], [c3second]] 1000 120 (asciiBytes "hv")).1).items = [c3second] ∧
    c3first ≠ c3second := by
  constructor <;> decide

/-- C3 amended: within one overlay poll, the deduplicated item list holds
one event per collected id, in first-seen order, and the event kept for each
id is the *last*-seen event with that id (a Python dict write replaces the
value but keeps the key's first-insertion position). -/
theorem claim_C3_amended (items : List OverlayEventQ) :
    (dedupById items).map (·.id) = firstSeenIds items ∧
    ∀ ev ∈ dedupById items, ((items.filter fun e => e.id = ev.id).getLast?) = some ev := by
  have inv := dictFold_inv items [] [] (by simp) (by simp) (by simp)
    (by simp [firstSeenIds])
  simp only [List.nil_append] at inv
  obtain ⟨h1, h2, h3⟩ := inv
  constructor
  · show ((dictFold items []).map (·.2)).map (·.id) = firstSeenIds items
    rw [List.map_map, ← h3]
    apply List.map_congr_left
    intro kv hkv
    exact h1 kv hkv
  · intro ev hev
    have hev' : ev ∈ (dictFold items []).map (·.2) := hev
    obtain ⟨kv, hkv, hev2⟩ := List.mem_map.mp hev'
    subst hev2
    rw [h1 kv hkv]
    exact h2 kv hkv

/-- C3 amended witness: at the counterexample's two-event collection, the
kept event is the last one with the shared id. -/
theorem claim_C3_amended_witness :
    (((([⟨asciiBytes "x", none, none, 0⟩, ⟨asciiBytes "x", none, none, 1⟩] :
        List OverlayEventQ).filter
          fun e => e.id = (⟨asciiBytes "x", none, none, 1⟩ : OverlayEventQ).id).getLast?)) =
      some ⟨asciiBytes "x", none, none, 1⟩ :=
  (claim_C3_amended [⟨asciiBytes "x", none, none, 0⟩, ⟨asciiBytes "x", none, none, 1⟩]).2
    ⟨asciiBytes "x", none, none, 1⟩ (by decide)

/-! ## C4 — expiry pruning vs the overlay cache window -/

/-- Every pack in the cache table satisfies expiry pruning relative to its
own creation instant. -/
def cacheOK (cache : List (List Nat × OverlayPackQ)) : Prop :=
  ∀ kv ∈ cache, ∀ ev ∈ kv.2.items, ∀ ts : Rat, ev.endAt = some ts → kv.2.createdAt ≤ ts

/-- A cache hit is a cache member under its key. -/
theorem cacheGet_mem {cache : List (List Nat × OverlayPackQ)} {k : List Nat}
    {p : OverlayPackQ} (h : cacheGet cache k = some p) : (k, p) ∈ cache := by
  unfold cacheGet at h
  obtain ⟨kv, hfind, hp⟩ := Option.map_eq_some'.mp h
  have hm := List.mem_of_find?_eq_some hfind
  have hk := List.find?_some hfind
  simp only [decide_eq_true_eq] at hk
  have hkv : kv = (k, p) := by
    obtain ⟨a, b⟩ := kv
    simp only at hk hp
    rw [hk, hp]
  exact hkv ▸ hm

/-- Entries after a cache write: an old entry or the written pair. -/
theorem mem_cachePut {cache : List (List Nat × OverlayPackQ)} {k : List Nat}
    {p : OverlayPackQ} {kv : List Nat × OverlayPackQ} (h : kv ∈ cachePut cache k p) :
    kv ∈ cache ∨ kv = (k, p) := by
  unfold cachePut at h
  split at h
  · obtain ⟨kv0, hkv0, heq⟩ := List.mem_map.mp h
    by_cases hk : kv0.1 = k
    · right; rw [← heq]; simp [hk]
    · left
      rw [if_neg hk] at heq
      exact heq ▸ hkv0
  · rcases List.mem_append.mp h with h1 | h1
    · exact Or.inl h1
    · right; simpa using h1

/-- An event a fresh build admits passed parse-time expiry pruning at the
poll instant. -/
theorem mem_fresh_items {sources : List (List OverlayEventQ)} {now : Rat}
    {minLng minLat maxLng maxLat : Rat} {ev : OverlayEventQ}
    (h : ev ∈ hazardsCollect sources now minLng minLat maxLng maxLat)
    {ts : Rat} (hts : ev.endAt = some ts) : now ≤ ts := by
  obtain ⟨src, _, hmem⟩ := List.mem_flatMap.mp h
  have h1 := List.mem_of_mem_filter hmem
  unfold parsePrune at h1
  have h2 := List.of_mem_filter h1
  rw [hts] at h2
  simp only [isExpired, Bool.not_eq_true', decide_eq_false_iff_not, not_lt] at h2
  exact h2

/-- C4 amended: a freshly built overlay pack contains no event whose
`end_at` precedes the poll instant; a cache-served pack may contain events
whose `end_at` has passed since the pack was built, but none earlier than
the pack's creation instant, which the freshness gate keeps within
`cache_seconds` of the call.  The cache invariant is preserved. -/
theorem claim_C4_amended (cache : List (List Nat × OverlayPackQ)) (bbox : BBoxDec)
    (sources : List (List OverlayEventQ)) (now : Rat) (cacheSeconds : Int)
    (algo : List Nat) (hok : cacheOK cache) (hcs : 0 ≤ cacheSeconds) :
    (∀ ev ∈ (hazardsPoll cache bbox sources now cacheSeconds algo).1.items,
      ∀ ts : Rat, ev.endAt = some ts →
        now - (cacheSeconds : Rat) ≤ ts ∧
        (hazardsPoll cache bbox sources now cacheSeconds algo).1.createdAt ≤ ts) ∧
    cacheOK (hazardsPoll cache bbox sources now cacheSeconds algo).2 := by
  have hfreshCase :
      ∀ (items : List OverlayEventQ) (key : List Nat),
      (items = [] ∨ items = hazardsCollect sources now bbox.minLng.val bbox.minLat.val
        bbox.maxLng.val bbox.maxLat.val) →
      (∀ ev ∈ dedupById items, ∀ ts : Rat, ev.endAt = some ts →
        now - (cacheSeconds : Rat) ≤ ts ∧ now ≤ ts) ∧
      cacheOK (cachePut cache key
        { key := key, createdAt := now, items := dedupById items }) := by
    intro items key hitems
    have hmemnow : ∀ ev ∈ dedupById items, ∀ ts : Rat, ev.endAt = some ts → now ≤ ts := by
      intro ev hev ts hts
      have hmem := mem_of_mem_dedupById hev
      rcases hitems with rfl | rfl
      · simp at hmem
      · exact mem_fresh_items hmem hts
    constructor
    · intro ev hev ts hts
      have hnow := hmemnow ev hev ts hts
      have hcast : (0 : Rat) ≤ (cacheSeconds : Rat) := by exact_mod_cast hcs
      exact ⟨by linarith, hnow⟩
    · intro kv hkv ev hev ts hts
      rcases mem_cachePut hkv with hold | hnew
      · exact hok kv hold ev hev ts hts
      · subst hnew
        exact hmemnow ev hev ts hts
  unfold hazardsPoll
  rcases hget : cacheGet cache (hazardsKey bbox
      (hazardsActiveStates bbox.minLng.val bbox.minLat.val bbox.maxLng.val bbox.maxLat.val)
      algo) with _ | p
  · simp only [hget]
    apply hfreshCase
    split
    · exact Or.inl rfl
    · exact Or.inr rfl
  · by_cases hf : isFresh p.createdAt now cacheSeconds = true
    · simp only [hget, hf, if_true]
      have hmem := cacheGet_mem hget
      have hcreated : ∀ ev ∈ p.items, ∀ ts : Rat, ev.endAt = some ts → p.createdAt ≤ ts :=
        fun ev hev ts hts => hok _ hmem ev hev ts hts
      have hwindow : now - (cacheSeconds : Rat) ≤ p.createdAt := by
        unfold isFresh at hf
        split at hf
        · exact absurd hf (by simp)
        · have hle := of_decide_eq_true hf
          rw [rsub_eq] at hle
          have hd : (Rat.divInt cacheSeconds 1) = (cacheSeconds : Rat) := Rat.divInt_one _
          rw [hd] at hle
          linarith
      refine ⟨?_, hok⟩
      intro ev hev ts hts
      have h1 := hcreated ev hev ts hts
      exact ⟨by linarith, h1⟩
    · simp only [hget, hf, if_false, Bool.false_eq_true]
      apply hfreshCase
      split
      · exact Or.inl rfl
      · exact Or.inr rfl

/-- The C4 query bbox (inside QLD). -/
def c4bbox : BBoxDec := ⟨⟨1530, 1⟩, ⟨-280, 1⟩, ⟨1531, 1⟩, ⟨-279, 1⟩⟩

/-- An event that expires 30 s after the first poll. -/
def c4ev : OverlayEventQ := ⟨asciiBytes "e", some 1030, some c3pt, 0⟩

/-- First poll at t = 1000: the event is live, the pack is built and
cached. -/
def c4run1 : OverlayPackQ × List (List Nat × OverlayPackQ) :=
  hazardsPoll [] c4bbox [[c4ev]] 1000 120 (asciiBytes "hv")

/-- Second poll at t = 1060 with the same bbox: the cached pack is still
fresh (60 ≤ 120) and is served as-is. -/
def c4run2 : OverlayPackQ × List (List Nat × OverlayPackQ) :=
  hazardsPoll c4run1.2 c4bbox [[c4ev]] 1060 120 (asciiBytes "hv")

/-- C4 counterexample: the second poll, at t = 1060, returns the cached
pack containing the event whose `end_at` is 1030 — an item whose `end_at`
is earlier than the time of the call, contradicting the claim for
cache-served packs. -/
theorem claim_C4_counterexample :
    (c4run2.1).items.map (·.endAt) = [some 1030] ∧ ((1030 : Rat) < 1060) := by
  constructor <;> decide

/-- C4 amended witness: the amended theorem at the first poll's inputs
(empty cache, nonnegative window), projected to the fresh pack's event. -/
theorem claim_C4_amended_witness :
    (∀ ev ∈ (hazardsPoll [] c4bbox [[c4ev]] 1000 120 (asciiBytes "hv")).1.items,
      ∀ ts : Rat, ev.endAt = some ts →
        (1000 : Rat) - ((120 : Int) : Rat) ≤ ts ∧
        (hazardsPoll [] c4bbox [[c4ev]] 1000 120 (asciiBytes "hv")).1.createdAt ≤ ts) ∧
    cacheOK (hazardsPoll [] c4bbox [[c4ev]] 1000 120 (asciiBytes "hv")).2 :=
  claim_C4_amended [] c4bbox [[c4ev]] 1000 120 (asciiBytes "hv")
    (by intro kv hkv; simp at hkv) (by norm_num)

/-! ## C5 — corridor-polyline POI containment -/

/-- A distance the scan returns is achieved by some sample, unless it is
the incoming best. -/
theorem minDistGo_some (hav : (Rat × Rat) → (Rat × Rat) → Rat) (p : Rat × Rat) :
    ∀ (samples : List (Rat × Rat)) (best : Option Rat) (d : Rat),
    minDistGo hav p samples best = some d →
    (∃ s ∈ samples, hav p s = d) ∨ best = some d := by
  intro samples
  induction samples with
  | nil => intro best d h; exact Or.inr h
  | cons s tl ih =>
    intro best d h
    simp only [minDistGo] at h
    split at h
    · split at h
      · exact Or.inl ⟨s, by simp, by simpa using h⟩
      · rcases ih (some (hav p s)) d h with ⟨s', hs', he⟩ | hbest
        · exact Or.inl ⟨s', by simp [hs'], he⟩
        · exact Or.inl ⟨s, by simp, by simpa using hbest⟩
    · rcases ih best d h with ⟨s', hs', he⟩ | hbest
      · exact Or.inl ⟨s', by simp [hs'], he⟩
      · exact Or.inr hbest

/-- A passed `_accept` distance test exhibits a sample within the buffer. -/
theorem acceptDist_sound {hav : (Rat × Rat) → (Rat × Rat) → Rat}
    {samples : List (Rat × Rat)} {bufferM : Rat} {it : PlaceItemQ}
    (h : acceptDist hav samples bufferM it = true) :
    ∃ s ∈ samples, hav (it.lat, it.lng) s ≤ bufferM := by
  unfold acceptDist at h
  rcases hm : minDistanceToSamples hav (it.lat, it.lng) samples with _ | d
  · rw [hm] at h; simp at h
  · rw [hm] at h
    have hd : d ≤ bufferM := by simpa using h
    rcases minDistGo_some hav (it.lat, it.lng) samples none d hm with ⟨s, hs, he⟩ | hbest
    · exact ⟨s, hs, he ▸ hd⟩
    · simp at hbest

/-- Everything the admission loop holds was already held or passed
`_accept`. -/
theorem acceptLoop_mem {hav : (Rat × Rat) → (Rat × Rat) → Rat}
    {samples : List (Rat × Rat)} {bufferM : Rat} {limit : Nat} :
    ∀ (l : List PlaceItemQ) (st : List PlaceItemQ × List (List Nat)) (it : PlaceItemQ),
    it ∈ (acceptLoop hav samples bufferM limit l st).1 →
    it ∈ st.1 ∨ acceptDist hav samples bufferM it = true := by
  intro l
  induction l with
  | nil => intro st it h; exact Or.inl h
  | cons x tl ih =>
    intro st it h
    obtain ⟨items, seen⟩ := st
    simp only [acceptLoop] at h
    split at h
    · rename_i hacc
      have hx : acceptDist hav samples bufferM x = true := by
        cases ha : acceptDist hav samples bufferM x with
        | true => rfl
        | false => simp [ha] at hacc
      split at h
      · rcases List.mem_append.mp h with h1 | h1
        · exact Or.inl h1
        · right
          simp only [List.mem_singleton] at h1
          exact h1 ▸ hx
      · rcases ih _ it h with h1 | h1
        · rcases List.mem_append.mp h1 with h2 | h2
          · exact Or.inl h2
          · right
            simp only [List.mem_singleton] at h2
            exact h2 ▸ hx
        · exact Or.inr h1
    · exact ih _ it h

/-- C5: every item in a pack built by `Places.search_corridor_polyline`
lies within `buffer_km · 1000` metres (under the engine's distance
function, for which the real haversine is one instance) of at least one of
the sample points produced from the request's polyline during that
search. -/
theorem claim_C5_corridor_containment (hav : (Rat × Rat) → (Rat × Rat) → Rat)
    (polyline : List Nat) (bufferKm sampleIntervalKm : Rat) (limit : Nat)
    (overpassItems localItems : List PlaceItemQ) (supaItems : Option (List PlaceItemQ))
    (samples : List (Rat × Rat)) (result : List PlaceItemQ)
    (hs : samplePolyline hav polyline sampleIntervalKm true = some samples)
    (hr : searchCorridorPolyline hav polyline bufferKm sampleIntervalKm limit
      overpassItems localItems supaItems = some result) :
    ∀ it ∈ result, ∃ s ∈ samples, hav (it.lat, it.lng) s ≤ bufferKm * 1000 := by
  unfold searchCorridorPolyline at hr
  rw [hs] at hr
  simp only [Option.map_some', Option.some.injEq] at hr
  subst hr
  intro it hit
  rw [← rmul_eq]
  split at hit
  · simp at hit
  · have h3 := List.mem_of_mem_take hit
    have hstep : ∀ (c : Bool) (l : List PlaceItemQ) (st : List PlaceItemQ × List (List Nat)),
        it ∈ (if c then acceptLoop hav samples (rmul bufferKm 1000) limit l st else st).1 →
        it ∈ st.1 ∨ acceptDist hav samples (rmul bufferKm 1000) it = true := by
      intro c l st hmem
      cases c with
      | false => exact Or.inl hmem
      | true => exact acceptLoop_mem l st it hmem
    have hsup : ∀ (st : List PlaceItemQ × List (List Nat)),
        it ∈ (match supaItems with
          | some sup =>
            if st.1.length < limit then acceptLoop hav samples (rmul bufferKm 1000) limit sup st
            else st
          | none => st).1 →
        it ∈ st.1 ∨ acceptDist hav samples (rmul bufferKm 1000) it = true := by
      intro st hmem
      cases supaItems with
      | none => exact Or.inl hmem
      | some sup =>
        have hmem2 : it ∈ (if st.1.length < limit then
            acceptLoop hav samples (rmul bufferKm 1000) limit sup st else st).1 := hmem
        by_cases hc : st.1.length < limit
        · rw [if_pos hc] at hmem2
          exact acceptLoop_mem sup st it hmem2
        · rw [if_neg hc] at hmem2
          exact Or.inl hmem2
    rcases hsup _ h3 with h4 | h4
    · by_cases hc2 : (acceptLoop hav samples (rmul bufferKm 1000) limit overpassItems
          ([], [])).1.length < limit
      · rw [if_pos hc2] at h4
        rcases acceptLoop_mem localItems _ it h4 with h5 | h5
        · rcases acceptLoop_mem overpassItems ([], []) it h5 with h6 | h6
          · simp at h6
          · exact acceptDist_sound h6
        · exact acceptDist_sound h5
      · rw [if_neg hc2] at h4
        rcases acceptLoop_mem overpassItems ([], []) it h4 with h6 | h6
        · simp at h6
        · exact acceptDist_sound h6
    · exact acceptDist_sound h4

/-- C5 witness: a two-point polyline, a constant environment distance of
100 m, and one Overpass item — the item in the returned pack is within the
buffer of a sample point. -/
theorem claim_C5_corridor_containment_witness :
    ∃ s ∈ [((0 : Rat), (0 : Rat))],
      (fun (_ _ : Rat × Rat) => (100 : Rat))
        ((⟨asciiBytes "p1", 0, 0, 0⟩ : PlaceItemQ).lat,
         (⟨asciiBytes "p1", 0, 0, 0⟩ : PlaceItemQ).lng) s ≤ (15 : Rat) * 1000 :=
  claim_C5_corridor_containment (fun _ _ => 100)
    (encode_polyline6 [(0, 0), (1, 1)]) 15 8 8000
    [⟨asciiBytes "p1", 0, 0, 0⟩] [] none
    [(0, 0)] [⟨asciiBytes "p1", 0, 0, 0⟩]
    (by decide) (by decide)
    ⟨asciiBytes "p1", 0, 0, 0⟩ (by decide)

/-- C8 amended witness: the amended theorem at the single-point polyline
and one-edge store of the counterexample. -/
theorem claim_C8_amended_witness :
    ((corridorEnsureFresh (fun _ => 1) c8Store c8Poly 15000 350000).getD
        ⟨⟨0, 0, 0, 0⟩, [], []⟩).edges =
      (queryEdges c8Store (bboxExpand (fun _ => 1) (bboxFromPts [(0, 0)]) 15000).minLng
        (bboxExpand (fun _ => 1) (bboxFromPts [(0, 0)]) 15000).maxLng
        (bboxExpand (fun _ => 1) (bboxFromPts [(0, 0)]) 15000).minLat
        (bboxExpand (fun _ => 1) (bboxFromPts [(0, 0)]) 15000).maxLat 350000).map edgeOfRow :=
  (claim_C8_amended (fun _ => 1) c8Store c8Poly 15000 350000 [(0, 0)]
    ((corridorEnsureFresh (fun _ => 1) c8Store c8Poly 15000 350000).getD ⟨⟨0, 0, 0, 0⟩, [], []⟩)
    (by decide) (by decide) (by decide)).1

/-! ## C10 — `Places.search` limit clamping -/

/-- C10 counterexample: the claim's clamp `max(1, min(limit, hard_cap))`
would send a requested limit of 0 to 1, but `Places.search` first applies
`int(req.limit or 50)`, so a limit-0 request is served with limit 50: with
two stored items available the returned pack holds 2 items, exceeding the
claim's clamped size of 1. -/
theorem claim_C10_counterexample :
    (placesSearch true 0 12000 (Rat.divInt 7 10)
        [⟨asciiBytes "a", 0, 0, 0⟩, ⟨asciiBytes "b", 0, 0, 0⟩] none false [] 12).length = 2 ∧
    (max 1 (min (0 : Int) 12000)).toNat = 1 := by
  constructor
  · decide
  · decide

/-- C10 (amended): on the cache-miss bbox/point path of `Places.search`
the effective limit is `max(1, min(int(req.limit or 50), places_hard_cap))`
— a requested limit of 0 first falls back to 50 — and every returned pack
holds at most that many items; in particular limit 0 is served as 50, a
negative limit as 1, and a limit above the hard cap as the hard cap. -/
theorem claim_C10_amended (hasBBox : Bool) (reqLimit hardCap : Int) (satisfyRatio : Rat)
    (localItems : List PlaceItemQ) (supaItems : Option (List PlaceItemQ))
    (hasFilters : Bool) (tiles : List TileFetch) (maxTiles : Nat) :
    (placesSearch hasBBox reqLimit hardCap satisfyRatio localItems supaItems
        hasFilters tiles maxTiles).length ≤ (clampLimit reqLimit hardCap).toNat ∧
    clampLimit 0 12000 = 50 ∧ clampLimit (-5) 12000 = 1 ∧ clampLimit 20000 12000 = 12000 := by
  refine ⟨?_, by decide, by decide, by decide⟩
  simp only [placesSearch]
  split
  · simp
  · repeat' first
      | exact List.length_take_le _ _
      | split

end Roam
